import Mathlib

/-!
Verification development for the dynamodb-paginator library.

Shallow embedding conventions:
* JavaScript `Buffer`s are modelled as `List Nat` of byte values (each `< 256`
  wherever the code guarantees it).  JavaScript strings that the code only ever
  treats as byte carriers (attribute names, attribute values) are modelled by
  their byte sequences as well, so `s.length` is the byte length.
* Fallible operations (`assert`, `writeUInt16BE` range errors, cipher padding
  errors, …) are modelled with `Except`.
* The AES-256 block primitive and HMAC-SHA256 are external crypto primitives
  (node's `crypto` module); they are modelled as an abstract pair of block
  functions plus an abstract MAC function bundled in `KeysM`.  CBC chaining and
  PKCS#7 padding — the `aes-256-cbc` mode behaviour the code relies on — are
  modelled concretely.
* Loops are modelled by fuel-indexed structural recursion; every top-level
  wrapper supplies fuel strictly larger than an explicit termination measure,
  and theorems never rely on the fuel-exhaustion branch.
-/

/-! ## Definitions: the shallow embedding -/

/-- util.ts `uInt16Buffer`: `Buffer.alloc(2)` + `writeUInt16BE(value)`;
`writeUInt16BE` throws a range error when the value exceeds 65535. -/
def uInt16Buffer (n : Nat) : Except Unit (List Nat) :=
  if n < 65536 then .ok [n / 256 % 256, n % 256] else .error ()

/-- Big-endian 4-byte encoding, as produced by `Buffer.writeUInt32BE`. -/
def be32 (n : Nat) : List Nat :=
  [n / 16777216 % 256, n / 65536 % 256, n / 256 % 256, n % 256]

/-- Modelled from the spec: `uInt32Buffer` is imported by `index.ts` from
`./util` but the shipped `util.ts` source does not contain it.  The spec
describes the framing it produces as a "4-byte big-endian length prefix"
(§4.4), i.e. `Buffer.alloc(4)` + `writeUInt32BE(value)`, which throws a range
error when the value exceeds 4294967295. -/
def uInt32Buffer (n : Nat) : Except Unit (List Nat) :=
  if n < 4294967296 then .ok (be32 n) else .error ()

/-- `buf.readUInt16BE(pos)`: throws when fewer than 2 bytes are available. -/
def readUInt16BE (buf : List Nat) (pos : Nat) : Except Unit Nat :=
  if pos + 2 ≤ buf.length then .ok (buf.getD pos 0 * 256 + buf.getD (pos + 1) 0)
  else .error ()

/-- `buf.readUInt32BE(pos)`: throws when fewer than 4 bytes are available. -/
def readUInt32BE (buf : List Nat) (pos : Nat) : Except Unit Nat :=
  if pos + 4 ≤ buf.length then
    .ok (buf.getD pos 0 * 16777216 + buf.getD (pos + 1) 0 * 65536 +
         buf.getD (pos + 2) 0 * 256 + buf.getD (pos + 3) 0)
  else .error ()

/-- Standard base64 alphabet, index to character. -/
def b64Char (n : Nat) : Char :=
  if n < 26 then Char.ofNat (65 + n)
  else if n < 52 then Char.ofNat (97 + (n - 26))
  else if n < 62 then Char.ofNat (48 + (n - 52))
  else if n = 62 then '+' else '/'

/-- Standard base64 encoding of a byte list (with `=` padding), grouping three
bytes into four characters. -/
def b64EncodeCore : List Nat → List Char
  | a :: b :: c :: rest =>
      b64Char (a / 4 % 64) :: b64Char ((a % 4) * 16 + b / 16) ::
      b64Char ((b % 16) * 4 + c / 64) :: b64Char (c % 64) :: b64EncodeCore rest
  | [a, b] =>
      [b64Char (a / 4 % 64), b64Char ((a % 4) * 16 + b / 16),
       b64Char ((b % 16) * 4), '=']
  | [a] =>
      [b64Char (a / 4 % 64), b64Char ((a % 4) * 16), '=', '=']
  | [] => []

/-- util.ts `b64uEncode`: `input.toString('base64')`, then every `+` is
replaced by `-`, every `/` by `_`, and every `=` is removed. -/
def b64uEncode (input : List Nat) : List Char :=
  ((b64EncodeCore input).map (fun c =>
      if c = '+' then '-' else if c = '/' then '_' else c)).filter (fun c => c ≠ '=')

/-- Base64 value of a character after the url-safe replacement
(`-`→`+`, `_`→`/`); characters outside the alphabet are ignored by node's
decoder, modelled by returning `none`. -/
def b64Val (c : Char) : Option Nat :=
  let n := c.toNat
  if 65 ≤ n ∧ n ≤ 90 then some (n - 65)
  else if 97 ≤ n ∧ n ≤ 122 then some (n - 97 + 26)
  else if 48 ≤ n ∧ n ≤ 57 then some (n - 48 + 52)
  else if c = '+' then some 62
  else if c = '/' then some 63
  else none

/-- Reassemble bytes from 6-bit groups; a trailing group of two values yields
one byte and of three values yields two bytes, as node's base64 decoder does
for unpadded input. -/
def b64DecodeCore : List Nat → List Nat
  | a :: b :: c :: d :: rest =>
      (a * 4 + b / 16) :: ((b % 16) * 16 + c / 4) :: ((c % 4) * 64 + d) ::
      b64DecodeCore rest
  | [a, b, c] => [a * 4 + b / 16, (b % 16) * 16 + c / 4]
  | [a, b] => [a * 4 + b / 16]
  | _ => []

/-- util.ts `b64uDecode`: every `-` is replaced by `+` and every `_` by `/`,
then `Buffer.from(.., 'base64')`; node ignores characters outside the
alphabet. -/
def b64uDecode (input : List Char) : List Nat :=
  b64DecodeCore ((input.map (fun c =>
      if c = '-' then '+' else if c = '_' then '/' else c)).filterMap b64Val)

/-- DynamoDB key attribute values relevant to the codec: UTF-8 strings or
binary `Buffer`s, both carried as byte sequences. -/
inductive DBValue where
  | str : List Nat → DBValue
  | bin : List Nat → DBValue
deriving DecidableEq, Repr

/-- The raw bytes of a value (`Buffer.from(v)`). -/
def DBValue.bytes : DBValue → List Nat
  | .str b => b
  | .bin b => b

/-- The one-byte type tag written by `flattenKey`: `'B'` (66) for a `Buffer`,
`'S'` (83) otherwise. -/
def DBValue.tag : DBValue → Nat
  | .str _ => 83
  | .bin _ => 66

/-- A JavaScript object used as a DynamoDB `AttributeMap`, modelled as an
insertion-ordered association list; a `none` value models a property that is
present but `undefined`. -/
abbrev AttributeMap := List (List Nat × Option DBValue)

/-- `flattenKey` over `Object.entries`: entries with `undefined` values are
filtered out; each remaining entry contributes
`tag ++ [name.length & 255] ++ name ++ uInt16Buffer(value.length) ++ value`
(`Buffer.from([k.length])` masks the length to one byte; `uInt16Buffer`
throws past 65535). -/
def flattenEntries : AttributeMap → Except Unit (List Nat)
  | [] => .ok []
  | (_, none) :: rest => flattenEntries rest
  | (k, some v) :: rest => do
      let lv ← uInt16Buffer v.bytes.length
      let tail ← flattenEntries rest
      .ok ([v.tag, k.length % 256] ++ k ++ lv ++ v.bytes ++ tail)

/-- index.ts `flattenKey`. -/
def flattenKey (key : AttributeMap) : Except Unit (List Nat) :=
  flattenEntries key

/-- JavaScript object property assignment `key[k] = v`: overwrite in place if
the name exists, else append. -/
def setAssoc (m : AttributeMap) (k : List Nat) (v : DBValue) : AttributeMap :=
  match m with
  | [] => [(k, some v)]
  | (k', v') :: rest =>
      if k' = k then (k', some v) :: rest else (k', v') :: setAssoc rest k v

/-- The loop body of index.ts `unflattenKey`.  Faithful to the source, the
type tag is read from `buf.slice(0, 1)` — absolute position 0 — on every
iteration, not from the current position.  Reads past the end of the buffer
are modelled as errors (node's `readUInt16BE` throws there). -/
def unflattenLoop (fuel : Nat) (buf : List Nat) (pos : Nat) (acc : AttributeMap) :
    Except Unit AttributeMap :=
  match fuel with
  | 0 => .error ()
  | fuel + 1 =>
    if pos < buf.length then
      let t := buf.getD 0 0
      let pos := pos + 1
      if pos < buf.length then
        let keyLen := buf.getD pos 0
        let pos := pos + 1
        match readUInt16BE buf (pos + keyLen) with
        | .error _ => .error ()
        | .ok valLen =>
          let k := (buf.drop pos).take keyLen
          let v := (buf.drop (pos + 2 + keyLen)).take valLen
          let value := if t = 66 then DBValue.bin v else DBValue.str v
          unflattenLoop fuel buf (pos + keyLen + 2 + valLen) (setAssoc acc k value)
      else .error ()
    else .ok acc

/-- index.ts `unflattenKey`.  Each iteration advances `pos` by at least 4, so
`buf.length + 1` units of fuel always suffice. -/
def unflattenKey (buf : List Nat) : Except Unit AttributeMap :=
  unflattenLoop (buf.length + 1) buf 0 []

/-- The resolved encryption/signing key pair of `index.ts` (`Keys`), modelled
by the primitives it selects: the AES-256 block permutation determined by
`encKey` (forward and inverse direction) and the HMAC-SHA256 instance keyed by
`sigKey` (32-byte output). -/
structure KeysM where
  encBlock : List Nat → List Nat
  decBlock : List Nat → List Nat
  hmac : List Nat → List Nat

/-- PKCS#7 padding applied by `createCipheriv('aes-256-cbc', ..).final()`:
append `16 - len % 16` copies of that count. -/
def pkcs7Pad (pt : List Nat) : List Nat :=
  let n := 16 - pt.length % 16
  pt ++ List.replicate n n

/-- PKCS#7 unpadding applied by `createDecipheriv(..).final()`: the last byte
gives the pad length, which must be between 1 and 16, fit in the buffer, and
all pad bytes must match; otherwise decryption fails with a padding error. -/
def pkcs7Unpad (l : List Nat) : Except Unit (List Nat) :=
  match l.getLast? with
  | none => .error ()
  | some n =>
    if 1 ≤ n ∧ n ≤ 16 ∧ n ≤ l.length ∧ (l.drop (l.length - n)).all (· = n) then
      .ok (l.take (l.length - n))
    else .error ()

/-- Bytewise xor of two 16-byte blocks. -/
def xorBlock (a b : List Nat) : List Nat := List.zipWith Nat.xor a b

/-- CBC-mode encryption of a padded byte string: `c i = E (p i xor c (i-1))`
with `c 0` chained from the IV.  Fuel `l.length + 1` always suffices since
each step consumes a 16-byte chunk. -/
def cbcEncBytes (fuel : Nat) (E : List Nat → List Nat) (prev l : List Nat) : List Nat :=
  match fuel with
  | 0 => []
  | fuel + 1 =>
    match l with
    | [] => []
    | _ =>
      let c := E (xorBlock prev (l.take 16))
      c ++ cbcEncBytes fuel E c (l.drop 16)

/-- CBC-mode decryption: `p i = D (c i) xor c (i-1)`. -/
def cbcDecBytes (fuel : Nat) (D : List Nat → List Nat) (prev l : List Nat) : List Nat :=
  match fuel with
  | 0 => []
  | fuel + 1 =>
    match l with
    | [] => []
    | _ =>
      let c := l.take 16
      xorBlock prev (D c) ++ cbcDecBytes fuel D c (l.drop 16)

/-- The signed message of `encodeKey`/`_decodeKey`:
`aad ‖ cipherText ‖ Buffer.alloc(8)` with the last four bytes overwritten by
`writeUint32BE(aad.length)`.  `writeUint32BE` throws past 4294967295. -/
def toSignBytes (aad cipherText : List Nat) : Except Unit (List Nat) :=
  if aad.length < 4294967296 then
    .ok (aad ++ cipherText ++ [0, 0, 0, 0] ++ be32 aad.length)
  else .error ()

/-- index.ts `encodeKey`: AES-256-CBC encrypt the plaintext under a fresh
16-byte IV (the IV is external entropy from `randomBytes(16)` and is passed in
explicitly here), then append the first 16 bytes of the HMAC of
`aad ‖ iv ‖ ciphertext ‖ be32-framed aad length`, and base64url-encode. -/
def encodeKey (plaintext : List Nat) (keys : KeysM) (aad iv : List Nat) :
    Except Unit (List Char) := do
  let cipherText := iv ++ cbcEncBytes (plaintext.length + 17) keys.encBlock iv (pkcs7Pad plaintext)
  let toSign ← toSignBytes aad cipherText
  .ok (b64uEncode (cipherText ++ (keys.hmac toSign).take 16))

/-- The distinct low-level failure causes inside `_decodeKey`: the length
assertion, a length mismatch inside `timingSafeEqual`, a signature mismatch,
a range error building the signed message, and a CBC padding/format failure.
All of them are caught by the public `decodeKey`. -/
inductive DecodeFailure where
  | badLength
  | sigLengthMismatch
  | badSignature
  | rangeError
  | badPadding
deriving DecidableEq, Repr

/-- `timingSafeEqual` throws when the buffers have different lengths and
otherwise compares them. -/
def timingSafeEqual (a b : List Nat) : Except Unit Bool :=
  if a.length = b.length then .ok (a = b) else .error ()

/-- index.ts `_decodeKey`: base64url-decode, assert
`token.length > 48 && encrypted.length % 16 === 0`, split off IV (first 16
bytes), ciphertext (all but the trailing 16) and signature (trailing 16),
recompute and constant-time-compare the truncated HMAC, then CBC-decrypt and
unpad. -/
def _decodeKey (token : List Char) (keys : KeysM) (aad : List Nat) :
    Except DecodeFailure (List Nat) := do
  let encrypted := b64uDecode token
  if ¬(token.length > 48 ∧ encrypted.length % 16 = 0) then throw .badLength
  let iv := encrypted.take 16
  let cipherText := encrypted.take (encrypted.length - 16)
  let sig := encrypted.drop (encrypted.length - 16)
  let toSign ←
    match toSignBytes aad cipherText with
    | .ok m => pure m
    | .error _ => throw .rangeError
  let eq ←
    match timingSafeEqual ((keys.hmac toSign).take 16) sig with
    | .ok b => pure b
    | .error _ => throw .sigLengthMismatch
  if ¬eq then throw .badSignature
  let body := cipherText.drop 16
  if body.length % 16 ≠ 0 ∨ body.length = 0 then throw .badPadding
  match pkcs7Unpad (cbcDecBytes (body.length + 1) keys.decBlock iv body) with
  | .ok pt => pure pt
  | .error _ => throw .badPadding

/-- The `TokenError` class: name and message as constructed by
`new TokenError()`. -/
structure TokenErrorE where
  name : String
  message : String
deriving DecidableEq, Repr

/-- The single error value `decodeKey` ever surfaces. -/
def tokenInvalid : TokenErrorE := ⟨"TokenError", "Token is invalid"⟩

/-- index.ts `decodeKey`: runs `_decodeKey` in a try/catch and rethrows any
failure as `new TokenError()`. -/
def decodeKey (token : List Char) (keys : KeysM) (aad : List Nat) :
    Except TokenErrorE (List Nat) :=
  match _decodeKey token keys aad with
  | .ok pt => .ok pt
  | .error _ => .error tokenInvalid

/-- A DynamoDB item or key, as handled by the pagination engine. -/
abbrev Item := AttributeMap

/-- The slice of a `QueryCommandInput`/`ScanCommandInput` the engine inspects:
`IndexName` and `ExclusiveStartKey`. -/
structure Query where
  indexName : Option (List Nat)
  exclusiveStartKey : Option Item
deriving DecidableEq

/-- The page method of the engine. -/
inductive Method where
  | query
  | scan
deriving DecidableEq, Repr

/-- One store (DynamoDB) page response: `Items`, `LastEvaluatedKey`,
`ScannedCount` and `ConsumedCapacity.CapacityUnits`. -/
structure Page where
  items : List Item
  lek : Option Item
  scanned : Nat
  capacity : Nat

/-- The store is consumed as a sequence of responses to successive page
requests; an `error` entry models a rejected request. -/
abbrev Store := List (Except Unit Page)

/-- The state of a `PaginationResponse` instance: the public counters, the
`done` flag, the buffered page, the locally tracked next-key pointer, the
store-reported `LastEvaluatedKey`, and the immutable configuration captured by
the constructor.  `key` and `client` are opaque (`κ`, `γ`). -/
structure Engine (κ γ : Type) where
  count : Nat
  requestCount : Nat
  scannedCount : Nat
  consumedCapacity : Nat
  done : Bool
  curPage : List Item
  nextKey : Option Item
  lastEvaluatedKey : Option Item
  limit : Option Nat
  filter : Option (Item → Bool)
  fromTok : Option (List Char)
  query : Query
  context : Option (List Nat)
  key : κ
  client : γ
  schema : List Nat × Option (List Nat)
  indexes : List Nat → List Nat × Option (List Nat)
  method : Method

/-- `PaginationResponse.defaultIndex`: take the index name up to the first
`.` and append `PK` / `SK`. -/
def defaultIndex (index : List Nat) : List Nat × Option (List Nat) :=
  let idx := index.takeWhile (fun b => b ≠ 46)
  (idx ++ [80, 75], some (idx ++ [83, 75]))

/-- The constructor arguments of `PaginationResponse` (the
`PaginationResponseOptions` object; absent optional members are `none`). -/
structure EngineArgs (κ γ : Type) where
  client : γ
  key : κ
  query : Query
  filter : Option (Item → Bool) := none
  fromTok : Option (List Char) := none
  limit : Option Nat := none
  method : Method
  schema : Option (List Nat × Option (List Nat)) := none
  indexes : Option (List Nat → List Nat × Option (List Nat)) := none
  context : Option (List Nat) := none

/-- The `PaginationResponse` constructor: counters zero, `done` false, empty
buffer, next-key pointer seeded from `query.ExclusiveStartKey`, schema
defaulting to `['PK','SK']` and index resolver to `defaultIndex`. -/
def mkEngine {κ γ : Type} (a : EngineArgs κ γ) : Engine κ γ where
  count := 0
  requestCount := 0
  scannedCount := 0
  consumedCapacity := 0
  done := false
  curPage := []
  nextKey := a.query.exclusiveStartKey
  lastEvaluatedKey := none
  limit := a.limit
  filter := a.filter
  fromTok := a.fromTok
  query := a.query
  context := a.context
  key := a.key
  client := a.client
  schema := a.schema.getD ([80, 75], some [83, 75])
  indexes := a.indexes.getD defaultIndex
  method := a.method

/-- JavaScript property read `item[k]` (absent and explicitly-`undefined`
properties both read as `undefined`). -/
def getAttr (m : Item) (k : List Nat) : Option DBValue :=
  (List.lookup k m).join

/-- `PaginationResponse.buildLastEvaluatedKey`: select the key pair from the
base schema (no index) or the index resolver, and project the item onto it;
with no sort key only the partition attribute is kept. -/
def buildLastEvaluatedKeyM {κ γ : Type} (e : Engine κ γ) (item : Item)
    (index : Option (List Nat)) : Item :=
  let kp := match index with
    | none => e.schema
    | some idx => e.indexes idx
  match kp.2 with
  | none => [(kp.1, getAttr item kp.1)]
  | some sk => [(kp.1, getAttr item kp.1), (sk, getAttr item sk)]

/-- JavaScript object spread `{ ...base, ...extra }`: base entries in order
with values overridden by `extra` where names collide, then the remaining
`extra` entries. -/
def mergeSpread (base extra : Item) : Item :=
  (base.map fun p =>
      match List.lookup p.1 extra with
      | some v => (p.1, v)
      | none => p) ++
    extra.filter (fun p => (List.lookup p.1 base).isNone)

/-- `PaginationResponse.popItem`: shift the buffer head; if the buffer is now
empty and a store `LastEvaluatedKey` exists, the pointer is set to it,
otherwise (when an item was popped) the pointer is rebuilt from the item via
the base schema, merged with the index key pair when the query names an
index; a popped item is surfaced (and counted) only if it passes the filter. -/
def popItem {κ γ : Type} (e : Engine κ γ) : Engine κ γ × Option Item :=
  match e.curPage with
  | [] =>
    (if e.lastEvaluatedKey.isSome then { e with nextKey := e.lastEvaluatedKey } else e,
     none)
  | item :: rest =>
    let e1 := { e with curPage := rest }
    let e2 :=
      if e.lastEvaluatedKey.isSome && rest.isEmpty then
        { e1 with nextKey := e.lastEvaluatedKey }
      else
        let base := buildLastEvaluatedKeyM e item none
        { e1 with nextKey := some (match e.query.indexName with
            | none => base
            | some idx => mergeSpread base (buildLastEvaluatedKeyM e item (some idx))) }
    match e.filter with
    | none => ({ e2 with count := e2.count + 1 }, some item)
    | some f =>
      if f item then ({ e2 with count := e2.count + 1 }, some item) else (e2, none)

/-- `PaginationResponse._getItems`: return the buffer if non-empty, nothing if
done; otherwise increment `requestCount` (this happens before the request is
awaited), issue the page request, and on success accumulate `ScannedCount` and
capacity, record the store continuation key, set `done` when it is absent, and
append the returned items to the buffer.  A rejected request surfaces as an
error after the `requestCount` increment. -/
def _getItems {κ γ : Type} (e : Engine κ γ) (s : Store) :
    Engine κ γ × Store × Except Unit (List Item) :=
  if !e.curPage.isEmpty then (e, s, .ok e.curPage)
  else if e.done then (e, s, .ok [])
  else
    match s with
    | [] => (e, s, .error ())
    | resp :: rest =>
      let e1 := { e with requestCount := e.requestCount + 1 }
      match resp with
      | .error _ => (e1, rest, .error ())
      | .ok r =>
        let e2 := { e1 with
          scannedCount := e1.scannedCount + r.scanned
          consumedCapacity := e1.consumedCapacity + r.capacity
          lastEvaluatedKey := r.lek
          done := r.lek.isNone
          curPage := e1.curPage ++ r.items }
        (e2, rest, .ok e2.curPage)

/-- The `finished` accessor: the store signalled exhaustion and the buffer is
drained. -/
def finishedM {κ γ : Type} (e : Engine κ γ) : Bool :=
  e.done && e.curPage.isEmpty

/-- The `this.count < limit` loop guard (`limit` absent means `Infinity`). -/
def countLtLimit {κ γ : Type} (e : Engine κ γ) : Bool :=
  match e.limit with
  | none => true
  | some l => decide (e.count < l)

/-- Termination measure of the iteration loop: total size of the unconsumed
store responses, plus the buffer, plus one while not done. -/
def respSize : Except Unit Page → Nat
  | .error _ => 1
  | .ok r => r.items.length + 1

def storeSize (s : Store) : Nat := (s.map respSize).sum

def engineMeasure {κ γ : Type} (e : Engine κ γ) (s : Store) : Nat :=
  storeSize s + e.curPage.length

/-- Result of driving the iterator to completion: the yielded items together
with the final engine state and remaining store, or the state at which a
rejected page request escaped. -/
inductive RunOut (κ γ : Type) where
  | ok (ys : List Item) (e : Engine κ γ) (s : Store)
  | fetchFail (ys : List Item) (e : Engine κ γ) (s : Store)
  | fuelOut

/-- The `do … while (!this.finished && this.count < limit)` body of
`[Symbol.asyncIterator]`, collecting every yielded item: fetch (if needed),
pop one item, yield it if present, repeat while the guard holds. -/
def runLoop {κ γ : Type} (fuel : Nat) (e : Engine κ γ) (s : Store)
    (acc : List Item) : RunOut κ γ :=
  match fuel with
  | 0 => .fuelOut
  | fuel + 1 =>
    match _getItems e s with
    | (e1, s1, .error _) => .fetchFail acc e1 s1
    | (e1, s1, .ok _) =>
      let (e2, it) := popItem e1
      let acc2 := match it with
        | some x => acc ++ [x]
        | none => acc
      if !finishedM e2 && countLtLimit e2 then runLoop fuel e2 s1 acc2
      else .ok acc2 e2 s1

/-- Failures of the `from`-token seeding step at the top of the iterator. -/
inductive StartFail where
  | tokenErr (te : TokenErrorE)
  | decodeErr
deriving DecidableEq, Repr

/-- The seeding step of `[Symbol.asyncIterator]`: when a `from` token is set
and no next-key pointer exists yet, decode the token (any `TokenError`
propagates) and unflatten it into the pointer. -/
def iterStart {γ : Type} (e : Engine KeysM γ) : Except StartFail (Engine KeysM γ) :=
  match e.fromTok, e.nextKey with
  | some tok, none =>
    match decodeKey tok e.key (e.context.getD []) with
    | .error te => .error (.tokenErr te)
    | .ok buf =>
      match unflattenKey buf with
      | .ok k => .ok { e with nextKey := some k }
      | .error _ => .error .decodeErr
  | _, _ => .ok e

/-- `all()`: drain the iterator (a fresh generator, so the `from` seeding step
runs first). -/
def runAllM {γ : Type} (e : Engine KeysM γ) (s : Store) :
    Except StartFail (RunOut KeysM γ) :=
  (iterStart e).map fun e0 => runLoop (engineMeasure e0 s + 1) e0 s []

/-- Result of pulling a single item from a fresh generator. -/
inductive PullOut (κ γ : Type) where
  | yielded (it : Item) (e : Engine κ γ) (s : Store)
  | ended (e : Engine κ γ) (s : Store)
  | fetchFail (e : Engine κ γ) (s : Store)
  | fuelOut

/-- Run the iterator body until the first yield (the generator is then
suspended and, for `peek`, closed by the early `return`), or until the loop
guard fails. -/
def pullOneLoop {κ γ : Type} (fuel : Nat) (e : Engine κ γ) (s : Store) :
    PullOut κ γ :=
  match fuel with
  | 0 => .fuelOut
  | fuel + 1 =>
    match _getItems e s with
    | (e1, s1, .error _) => .fetchFail e1 s1
    | (e1, s1, .ok _) =>
      let (e2, it) := popItem e1
      match it with
      | some x => .yielded x e2 s1
      | none =>
        if !finishedM e2 && countLtLimit e2 then pullOneLoop fuel e2 s1
        else .ended e2 s1

/-- Result of `peek()`. -/
inductive PeekOut (κ γ : Type) where
  | item (it : Option Item) (e : Engine κ γ) (s : Store)
  | fetchFail (e : Engine κ γ) (s : Store)
  | startFail (f : StartFail)
  | fuelOut

/-- `peek()`: pull one item from a fresh generator; when an item arrives,
unshift it back onto the buffer and decrement `count`; `undefined` when the
generator produced nothing. -/
def peekM {γ : Type} (e : Engine KeysM γ) (s : Store) : PeekOut KeysM γ :=
  match iterStart e with
  | .error f => .startFail f
  | .ok e0 =>
    match pullOneLoop (engineMeasure e0 s + 1) e0 s with
    | .yielded it e' s' =>
      .item (some it) { e' with curPage := it :: e'.curPage, count := e'.count - 1 } s'
    | .ended e' s' => .item none e' s'
    | .fetchFail e' s' => .fetchFail e' s'
    | .fuelOut => .fuelOut

/-- The `nextToken` accessor: `undefined` without a next-key pointer,
otherwise the flattened pointer encrypted under the resolved keys with the
configured context; the fresh random IV is passed explicitly. -/
def nextTokenM {γ : Type} (e : Engine KeysM γ) (iv : List Nat) :
    Option (Except Unit (List Char)) :=
  e.nextKey.map fun k => (flattenKey k).bind fun pt =>
    encodeKey pt e.key (e.context.getD []) iv

/-- `PaginationResponse.clone` merged with its call sites: the clone
destructures `limit`, `from`, `query`, `filter`, `client`, `key`, `method`,
`schema` and `indexes` — note: not `context` — and passes them, overridden by
the one configured option, to the constructor.  `filter(predicate)` overrides
the filter. -/
def filterM {κ γ : Type} (e : Engine κ γ) (p : Item → Bool) : Engine κ γ :=
  mkEngine { client := e.client, key := e.key, query := e.query,
             filter := some p, fromTok := e.fromTok, limit := e.limit,
             method := e.method, schema := some e.schema, indexes := some e.indexes }

/-- `from(nextToken)` via `clone`: override the `from` token. -/
def fromM {κ γ : Type} (e : Engine κ γ) (tok : Option (List Char)) : Engine κ γ :=
  mkEngine { client := e.client, key := e.key, query := e.query,
             filter := e.filter, fromTok := tok, limit := e.limit,
             method := e.method, schema := some e.schema, indexes := some e.indexes }

/-- `limit(limit)` via `clone`: override the limit. -/
def limitM {κ γ : Type} (e : Engine κ γ) (n : Nat) : Engine κ γ :=
  mkEngine { client := e.client, key := e.key, query := e.query,
             filter := e.filter, fromTok := e.fromTok, limit := some n,
             method := e.method, schema := some e.schema, indexes := some e.indexes }

/-- The option/configuration state of a `ParallelPaginationResponse` (it
extends `PaginationResponse` with a segment count). -/
structure PEngine (κ γ : Type) where
  base : Engine κ γ
  segments : Nat

/-- The `ParallelPaginationResponse` constructor. -/
def mkPEngine {κ γ : Type} (a : EngineArgs κ γ) (segments : Nat) : PEngine κ γ where
  base := mkEngine a
  segments := segments

/-- `ParallelPaginationResponse.clone` merged with its call sites: it
destructures only `limit`, `from`, `query`, `filter`, `client`, `key`,
`method` and `segments` — neither `schema` nor `indexes` nor `context` — so
the constructor re-defaults those. -/
def filterP {κ γ : Type} (e : PEngine κ γ) (p : Item → Bool) : PEngine κ γ :=
  mkPEngine { client := e.base.client, key := e.base.key, query := e.base.query,
              filter := some p, fromTok := e.base.fromTok, limit := e.base.limit,
              method := e.base.method } e.segments

/-- `from(nextToken)` on the parallel coordinator (dispatches to the parallel
`clone`). -/
def fromP {κ γ : Type} (e : PEngine κ γ) (tok : Option (List Char)) : PEngine κ γ :=
  mkPEngine { client := e.base.client, key := e.base.key, query := e.base.query,
              filter := e.base.filter, fromTok := tok, limit := e.base.limit,
              method := e.base.method } e.segments

/-- `limit(limit)` on the parallel coordinator (dispatches to the parallel
`clone`). -/
def limitP {κ γ : Type} (e : PEngine κ γ) (n : Nat) : PEngine κ γ :=
  mkPEngine { client := e.base.client, key := e.base.key, query := e.base.query,
              filter := e.base.filter, fromTok := e.base.fromTok,
              limit := some n, method := e.base.method } e.segments

/-- `ParallelPaginationResponse.nextToken` as a function of the workers'
next-key pointers: for each segment, a 4-byte big-endian length prefix
followed by the flattened key (empty when the segment has no pointer), all
concatenated and encrypted as one token. -/
def parallelNextToken (ks : List (Option AttributeMap)) (keys : KeysM)
    (ctx : Option (List Nat)) (iv : List Nat) : Except Unit (List Char) := do
  let framed ← ks.mapM fun k? => do
    let buf ← match k? with
      | some k => flattenKey k
      | none => .ok []
    let l ← uInt32Buffer buf.length
    Except.ok (l ++ buf)
  encodeKey framed.flatten keys (ctx.getD []) iv

/-- The per-segment splitting loop of `parseNextToken`: read a 4-byte
big-endian length at the cursor, slice that many bytes, unflatten them when
the length is non-zero (`undefined` otherwise), and advance the cursor. -/
def parseSegments : Nat → List Nat → Nat → Except Unit (List (Option AttributeMap))
  | 0, _, _ => .ok []
  | n + 1, pt, loc => do
    let len ← readUInt32BE pt loc
    let slice := (pt.drop (loc + 4)).take len
    let k? ← if len ≠ 0 then (unflattenKey slice).map some else .ok none
    let rest ← parseSegments n pt (loc + 4 + len)
    Except.ok (k? :: rest)

/-- `ParallelPaginationResponse.parseNextToken`: decode the composite token
(a `TokenError` propagates), assert it frames at least `segments` length
prefixes, and split it into the per-segment starting keys. -/
def parseNextToken (segments : Nat) (tok : List Char) (keys : KeysM)
    (ctx : Option (List Nat)) : Except Unit (List (Option AttributeMap)) := do
  let pt ← match decodeKey tok keys (ctx.getD []) with
    | .ok pt => Except.ok pt
    | .error _ => Except.error ()
  if pt.length < segments * 4 then Except.error ()
  else parseSegments segments pt 0

/-- The pointer value `popItem` installs when it pops `item` leaving `rest`
buffered (the two branches of its update). -/
def nextKeyAfterPop {x y : Type} (e : Engine x y) (item : Item) (rest : List Item) :
    Option Item :=
  if e.lastEvaluatedKey.isSome && rest.isEmpty then e.lastEvaluatedKey
  else some (match e.query.indexName with
    | none => buildLastEvaluatedKeyM e item none
    | some idx => mergeSpread (buildLastEvaluatedKeyM e item none)
        (buildLastEvaluatedKeyM e item (some idx)))

/-- A concrete abstract-cipher instantiation: an invertible byte-wise block
permutation and a deterministic 32-byte MAC, standing in for the AES-256 /
HMAC-SHA256 primitives (any functions with these shapes exercise the codec
logic identically). -/
def toyKeys : KeysM where
  encBlock := fun b => b.map fun x => (x + 131) % 256
  decBlock := fun b => b.map fun x => (x + 125) % 256
  hmac := fun m => (List.range 32).map fun i => (i * 5 + m.length) % 256

/-- A fixed 16-byte IV standing in for `randomBytes(16)`. -/
def toyIv : List Nat := List.range 16

/-- A well-formed two-attribute structured key of mixed value types:
attribute `A` holds the binary value `x`, attribute `B` holds the string
value `y`. -/
def mixedKey : AttributeMap :=
  [([65], some (DBValue.bin [120])), ([66], some (DBValue.str [121]))]

/-- What `mixedKey` decodes to after a full encode/decode round trip: the
decoder reads the type tag of the FIRST attribute (`'B'`) for every
attribute, so `B`'s string value comes back as binary. -/
def mixedKeyDecoded : AttributeMap :=
  [([65], some (DBValue.bin [120])), ([66], some (DBValue.bin [121]))]

/-- The canonical byte encoding as the spec words it (§3): for each present
attribute, a 1-byte type tag, a 1-byte name length, the name bytes, a 2-byte
big-endian value length, and the value bytes; absent attributes are dropped.
Stated from the spec's words for the refinement comparison with
`flattenKey`. -/
def canonicalEncodingSpec : AttributeMap → List Nat
  | [] => []
  | (_, none) :: rest => canonicalEncodingSpec rest
  | (k, some v) :: rest =>
      [v.tag, k.length] ++ k ++ [v.bytes.length / 256, v.bytes.length % 256] ++
        v.bytes ++ canonicalEncodingSpec rest

/-- A concrete engine configured with a non-empty `context`, used to exhibit
what the fluent methods drop. -/
def c9Engine : Engine Unit Unit :=
  mkEngine { client := (), key := (), query := ⟨none, none⟩,
             context := some [42], method := .query }

/-- A concrete engine state sitting on a one-item buffer with a recorded
store continuation key, plus a variant with two buffered items, used to
witness both branches of C4. -/
def c4Engine : Engine Unit Unit :=
  { mkEngine { client := (), key := (), query := ⟨none, none⟩, method := .query } with
    curPage := [[([80, 75], some (DBValue.str [97]))]],
    lastEvaluatedKey := some [([80, 75], some (DBValue.str [98]))] }

def c4Engine2 : Engine Unit Unit :=
  { c4Engine with
    curPage := [[([80, 75], some (DBValue.str [97]))],
                [([80, 75], some (DBValue.str [99]))]] }

/-- A fresh engine over a store whose first (and only) response is a rejected
request. -/
def c6Engine : Engine Unit Unit :=
  mkEngine { client := (), key := (), query := ⟨none, none⟩, method := .scan }

/-- Concrete inputs for the C10 witness: a fresh query engine and a
single-page store. -/
def c10Item : Item := [([80, 75], some (DBValue.str [97]))]

def c10Engine : Engine KeysM Unit :=
  mkEngine { client := (), key := toyKeys, query := ⟨none, none⟩, method := .query }

def c10Store : Store := [.ok ⟨[c10Item], none, 0, 0⟩]

/-- The items the store will serve, in order. -/
def storeItems : Store → List Item
  | [] => []
  | .error _ :: rest => storeItems rest
  | .ok r :: rest => r.items ++ storeItems rest

/-- Well-formed store behaviour for a query that runs to exhaustion: every
response succeeds, every page except the last reports a continuation key,
and the last page reports none. -/
def OkChainB : Store → Bool
  | [] => false
  | .error _ :: _ => false
  | [.ok r] => r.lek.isNone
  | .ok r :: rest => r.lek.isSome && OkChainB rest

/-- The engine state right after `popItem` popped `it` leaving `its`, for a
pop that did not surface the item (filtered out). -/
def popped {x y : Type} (e : Engine x y) (it : Item) (its : List Item) : Engine x y :=
  { e with curPage := its, nextKey := nextKeyAfterPop e it its }

/-- The engine state right after `popItem` popped and surfaced `it`. -/
def poppedC {x y : Type} (e : Engine x y) (it : Item) (its : List Item) : Engine x y :=
  { e with curPage := its, nextKey := nextKeyAfterPop e it its, count := e.count + 1 }

/-- The qualifying-yield invariant of the filtered, limited iteration: the
engine still owes `L - count` qualifying items and they are available in the
buffer plus (unless the store already signalled exhaustion) the remaining
store pages. -/
def C3Inv {x y : Type} (f : Item → Bool) (L : Nat) (e : Engine x y) (s : Store) : Prop :=
  e.filter = some f ∧ e.limit = some L ∧ e.count < L ∧
  (e.done = false → OkChainB s = true) ∧
  L ≤ e.count + e.curPage.countP f +
    (if e.done = true then 0 else (storeItems s).countP f)

/-- The statement proved by induction on fuel for C3. -/
def C3Goal {x y : Type} (f : Item → Bool) (L : Nat) (fuel : Nat) : Prop :=
  ∀ (e : Engine x y) (s : Store) (acc : List Item),
    engineMeasure e s + 1 ≤ fuel → C3Inv f L e s →
    ∃ ys efin sfin, runLoop fuel e s acc = .ok (acc ++ ys) efin sfin ∧
      ys.length + e.count = L ∧ ys.all f = true ∧ efin.count = L

/-- The engine state right after `_getItems` fetched page `r`. -/
def fetched {x y : Type} (e : Engine x y) (r : Page) : Engine x y :=
  { e with
      requestCount := e.requestCount + 1,
      scannedCount := e.scannedCount + r.scanned,
      consumedCapacity := e.consumedCapacity + r.capacity,
      lastEvaluatedKey := r.lek,
      done := r.lek.isNone,
      curPage := r.items }

/-- C3 counterexample input: an engine with `limit = 0` and a
pass-everything filter over a one-item store. -/
def c3ZeroEngine : Engine KeysM Unit :=
  mkEngine { client := (), key := toyKeys, query := ⟨none, none⟩,
             filter := some (fun _ => true), limit := some 0, method := .query }

/-- Concrete arguments for the C3 witness. -/
def c3WArgs : EngineArgs KeysM Unit :=
  { client := (), key := toyKeys, query := ⟨none, none⟩,
    filter := some (fun _ => true), limit := some 1, method := .query }

/-- Whether the store's final response is a successful page carrying at least
one item (so the last yielded item arrives together with the exhaustion
signal). -/
def lastPageNonempty : Store → Bool
  | [] => false
  | [resp] =>
    match resp with
    | .ok r => !r.items.isEmpty
    | .error _ => false
  | _ :: r2 :: rest2 => lastPageNonempty (r2 :: rest2)

/-- The exhaustion invariant of the unfiltered, limit-`L` iteration: the
engine will yield exactly the remaining buffered and store-served items and
their number is exactly `L - count`; while the store has not signalled
exhaustion its pages are well chained and its final page is non-empty. -/
def C5Inv {x y : Type} (L : Nat) (e : Engine x y) (s : Store) : Prop :=
  e.filter = none ∧ e.limit = some L ∧ e.count < L ∧
  (e.done = false → OkChainB s = true ∧ lastPageNonempty s = true) ∧
  L = e.count + e.curPage.length + (if e.done = true then 0 else (storeItems s).length)

/-- The statement proved by induction on fuel for C5. -/
def C5Goal {x y : Type} (L : Nat) (fuel : Nat) : Prop :=
  ∀ (e : Engine x y) (s : Store) (acc : List Item),
    engineMeasure e s + 1 ≤ fuel → C5Inv L e s →
    ∃ efin sfin, runLoop fuel e s acc =
        .ok (acc ++ e.curPage ++ (if e.done = true then [] else storeItems s)) efin sfin ∧
      efin.count = L ∧ efin.done = true ∧ efin.curPage = [] ∧ efin.fromTok = e.fromTok

/-- C5 counterexample input: a store that serves its single item together
with a continuation key and only signals exhaustion on a second, empty
page. -/
def c5CEngine : Engine KeysM Unit :=
  mkEngine { client := (), key := toyKeys, query := ⟨none, none⟩,
             limit := some 1, method := .query }

def c5CStore : Store :=
  [.ok ⟨[c10Item], some c10Item, 0, 0⟩, .ok ⟨[], none, 0, 0⟩]

/-- Concrete arguments for the C5 witness. -/
def c5WArgs : EngineArgs KeysM Unit :=
  { client := (), key := toyKeys, query := ⟨none, none⟩,
    limit := some 1, method := .query }

/-! ## Theorems -/

/-- Unfolding of `popItem` on a non-empty buffer with no filter. -/
theorem popItem_cons {x y : Type} (e : Engine x y) (item : Item) (rest : List Item)
    (h : e.curPage = item :: rest) (hf : e.filter = none) :
    popItem e =
      ({ e with
          curPage := rest,
          nextKey := nextKeyAfterPop e item rest,
          count := e.count + 1 }, some item) := by
  obtain ⟨c, rc, sc, cc, dn, cp, nk, lek, lim, fil, frm, q, ctx, k, cl, sch, idx, m⟩ := e
  simp only at h hf
  subst h
  subst hf
  simp only [popItem, nextKeyAfterPop]
  split
  · rfl
  · rfl

/-- Unfolding of `popItem` on a non-empty buffer whose head passes the
filter. -/
theorem popItem_cons_pass {x y : Type} (e : Engine x y) (item : Item)
    (rest : List Item) (f : Item → Bool) (h : e.curPage = item :: rest)
    (hf : e.filter = some f) (hpass : f item = true) :
    popItem e =
      ({ e with
          curPage := rest,
          nextKey := nextKeyAfterPop e item rest,
          count := e.count + 1 }, some item) := by
  obtain ⟨c, rc, sc, cc, dn, cp, nk, lek, lim, fil, frm, q, ctx, k, cl, sch, idx, m⟩ := e
  simp only at h hf
  subst h
  subst hf
  simp only [popItem, nextKeyAfterPop, hpass]
  by_cases hc : lek.isSome && rest.isEmpty <;> simp [hc]

/-- Unfolding of `popItem` on a non-empty buffer whose head fails the
filter: the item is consumed and the pointer advances, but nothing is
yielded and `count` is unchanged. -/
theorem popItem_cons_fail {x y : Type} (e : Engine x y) (item : Item)
    (rest : List Item) (f : Item → Bool) (h : e.curPage = item :: rest)
    (hf : e.filter = some f) (hfail : f item = false) :
    popItem e =
      ({ e with
          curPage := rest,
          nextKey := nextKeyAfterPop e item rest }, none) := by
  obtain ⟨c, rc, sc, cc, dn, cp, nk, lek, lim, fil, frm, q, ctx, k, cl, sch, idx, m⟩ := e
  simp only at h hf
  subst h
  subst hf
  simp only [popItem, nextKeyAfterPop, hfail]
  by_cases hc : lek.isSome && rest.isEmpty <;> simp [hc]

/-- Unfolding of `popItem` on an empty buffer. -/
theorem popItem_nil {x y : Type} (e : Engine x y) (h : e.curPage = []) :
    popItem e =
      (if e.lastEvaluatedKey.isSome then { e with nextKey := e.lastEvaluatedKey } else e,
       none) := by
  obtain ⟨c, rc, sc, cc, dn, cp, nk, lek, lim, fil, frm, q, ctx, k, cl, sch, idx, m⟩ := e
  simp only at h
  subst h
  simp only [popItem]

/-- `_getItems` on a non-empty buffer returns it unchanged. -/
theorem getItems_nonempty {x y : Type} (e : Engine x y) (s : Store) (it : Item)
    (rest : List Item) (h : e.curPage = it :: rest) :
    _getItems e s = (e, s, .ok e.curPage) := by
  obtain ⟨c, rc, sc, cc, dn, cp, nk, lek, lim, fil, frm, q, ctx, k, cl, sch, idx, m⟩ := e
  simp only at h
  subst h
  simp only [_getItems, List.isEmpty_cons, Bool.not_false, if_true]

/-- `_getItems` once the engine is done returns an empty page. -/
theorem getItems_done {x y : Type} (e : Engine x y) (s : Store)
    (h1 : e.curPage = []) (h2 : e.done = true) :
    _getItems e s = (e, s, .ok []) := by
  obtain ⟨c, rc, sc, cc, dn, cp, nk, lek, lim, fil, frm, q, ctx, k, cl, sch, idx, m⟩ := e
  simp only at h1 h2
  subst h1
  subst h2
  simp only [_getItems]
  rfl

/-- `_getItems` issuing a successful page request: counters accumulate, the
store continuation key is recorded, `done` is set when it is absent, and the
page items land in the buffer. -/
theorem getItems_fetch {x y : Type} (e : Engine x y) (r : Page) (rest : Store)
    (h1 : e.curPage = []) (h2 : e.done = false) :
    _getItems e (.ok r :: rest) =
      ({ e with
          requestCount := e.requestCount + 1,
          scannedCount := e.scannedCount + r.scanned,
          consumedCapacity := e.consumedCapacity + r.capacity,
          lastEvaluatedKey := r.lek,
          done := r.lek.isNone,
          curPage := r.items }, rest, .ok r.items) := by
  obtain ⟨c, rc, sc, cc, dn, cp, nk, lek, lim, fil, frm, q, ctx, k, cl, sch, idx, m⟩ := e
  simp only at h1 h2
  subst h1
  subst h2
  simp only [_getItems]
  rfl

/-- `_getItems` on a rejected page request: the request counter has already
been incremented; everything else is untouched. -/
theorem getItems_fetchFail {x y : Type} (e : Engine x y) (rest : Store)
    (h1 : e.curPage = []) (h2 : e.done = false) :
    _getItems e (.error () :: rest) =
      ({ e with requestCount := e.requestCount + 1 }, rest, .error ()) := by
  obtain ⟨c, rc, sc, cc, dn, cp, nk, lek, lim, fil, frm, q, ctx, k, cl, sch, idx, m⟩ := e
  simp only at h1 h2
  subst h1
  subst h2
  simp only [_getItems]
  rfl

/-- The pointer `popItem` installs after popping an item is always set: either
the store continuation key (only taken when present) or a freshly built key.
-/
theorem nextKeyAfterPop_isSome {x y : Type} (e : Engine x y) (item : Item)
    (rest : List Item) : (nextKeyAfterPop e item rest).isSome = true := by
  unfold nextKeyAfterPop
  split
  · next h => exact ((Bool.and_eq_true _ _).mp h).1
  · rfl

set_option maxRecDepth 8192 in
/-- C1: the claimed round trip
`unflattenKey (decodeKey (encodeKey (flattenKey K)))` = `K` with value types
preserved FAILS on the code.  Evaluating the full pipeline on the well-formed
mixed-type key `{A: Buffer('x'), B: 'y'}` returns `B` as a binary value
because `unflattenKey` reads the type tag from `buf.slice(0, 1)` — position
0 — on every iteration instead of at the current entry.  The encoder writes a
per-entry tag and the decoder consumes (but ignores) it, so the code
contradicts its own encoding format: a code bug. -/
theorem c1_mixed_type_roundtrip_bug :
    (((flattenKey mixedKey).bind fun pt => encodeKey pt toyKeys [] toyIv).bind fun tok =>
        match decodeKey tok toyKeys [] with
        | .ok buf => unflattenKey buf
        | .error _ => .error ()) = .ok mixedKeyDecoded ∧
    mixedKeyDecoded ≠ mixedKey := by
  exact ⟨by rfl, by decide⟩

set_option maxRecDepth 8192 in
/-- C7: the composite-token round trip holds for the framing (4-byte
big-endian length prefixes, zero length ↦ `undefined`) but does NOT recover
the per-segment keys exactly: with segment keys `[none, some mixedKey]` the
second segment comes back with its string value turned binary, by the same
`unflattenKey` tag defect as C1.  The framing itself (segment order, zero
length for the pointerless segment) is recovered as claimed. -/
theorem c7_composite_roundtrip_bug :
    ((parallelNextToken [none, some mixedKey] toyKeys none toyIv).bind fun tok =>
        parseNextToken 2 tok toyKeys none) = .ok [none, some mixedKeyDecoded] ∧
    some mixedKeyDecoded ≠ some mixedKey := by
  exact ⟨by rfl, by decide⟩

/-- C2: every failure of the public `decodeKey` — length assertion,
`timingSafeEqual` length mismatch, signature mismatch, range error, padding
failure — surfaces as the single uniform `TokenError` with message
`"Token is invalid"`; no other error value can escape, for every token,
key pair and associated-data context. -/
theorem c2_decode_failure_uniform (token : List Char) (keys : KeysM) (aad : List Nat) :
    (∃ pt, decodeKey token keys aad = .ok pt) ∨
    decodeKey token keys aad = .error ⟨"TokenError", "Token is invalid"⟩ := by
  unfold decodeKey
  cases h : _decodeKey token keys aad with
  | ok pt => exact Or.inl ⟨pt, rfl⟩
  | error e => exact Or.inr rfl

/-- Reduction of `Except` bind on a success value. -/
theorem exceptBind_ok {α β ε : Type} (a : α) (f : α → Except ε β) :
    (Except.ok a : Except ε α) >>= f = f a := rfl

/-- Reduction of `Except` bind on an error value. -/
theorem exceptBind_err {α β ε : Type} (e : ε) (f : α → Except ε β) :
    (Except.error e : Except ε α) >>= f = Except.error e := rfl

set_option maxRecDepth 2048 in
/-- C8 counterexample: the claim says `flattenKey` FAILS whenever an
attribute name exceeds 255 bytes.  On a key whose single attribute name is
256 bytes long, `flattenKey` does not fail at all: `Buffer.from([k.length])`
silently masks the length byte to `256 % 256 = 0` and produces a (corrupt)
encoding.  There is also no `EncodingError` anywhere in the code. -/
theorem c8_name_overflow_not_detected :
    flattenKey [(List.replicate 256 65, some (DBValue.str [104]))] =
      .ok ([83, 0] ++ List.replicate 256 65 ++ [0, 1, 104]) := by
  rfl

/-- C8 as amended: (1) a value longer than 65535 bytes makes `flattenKey`
fail (with `writeUInt16BE`'s range error — the code has no `EncodingError`
class); an over-long attribute name is NOT detected, its length byte wraps
modulo 256 (see the counterexample); (2) within the bounds (names ≤ 255
bytes, values ≤ 65535 bytes) `flattenKey` produces exactly the canonical
byte encoding, dropping attributes whose value is absent. -/
theorem c8_flatten_amended :
    (∀ (key : AttributeMap) (k : List Nat) (v : DBValue),
        (k, some v) ∈ key → 65536 ≤ v.bytes.length → flattenKey key = .error ()) ∧
    (∀ key : AttributeMap,
        (∀ k v, (k, some v) ∈ key → k.length ≤ 255 ∧ v.bytes.length ≤ 65535) →
        flattenKey key = .ok (canonicalEncodingSpec key)) := by
  constructor
  · intro key
    induction key with
    | nil => intro k v h _; simp at h
    | cons hd tl ih =>
      intro k v hmem hlen
      obtain ⟨hk, hv⟩ := hd
      rcases List.mem_cons.mp hmem with heq | htl
      · injection heq with h1 h2
        subst h1
        subst h2
        have hnot : ¬(v.bytes.length < 65536) := by omega
        simp [flattenKey, flattenEntries, uInt16Buffer, hnot, exceptBind_err]
      · have htail := ih k v htl hlen
        cases hv with
        | none => simpa [flattenKey, flattenEntries] using htail
        | some v'' =>
          cases h16 : uInt16Buffer v''.bytes.length with
          | error e =>
            simp [flattenKey, flattenEntries, h16, exceptBind_err]
          | ok lv =>
            simp only [flattenKey] at htail
            simp [flattenKey, flattenEntries, h16, htail, exceptBind_ok, exceptBind_err]
  · intro key hb
    induction key with
    | nil => rfl
    | cons hd tl ih =>
      obtain ⟨hk, hv⟩ := hd
      have hbtl : ∀ k v, (k, some v) ∈ tl → k.length ≤ 255 ∧ v.bytes.length ≤ 65535 :=
        fun k v h => hb k v (List.mem_cons_of_mem _ h)
      have htail := ih hbtl
      cases hv with
      | none => simpa [flattenKey, flattenEntries, canonicalEncodingSpec] using htail
      | some v'' =>
        obtain ⟨hklen, hvlen⟩ := hb hk v'' (List.mem_cons_self _ _)
        have hlt : v''.bytes.length < 65536 := by omega
        have hdiv : v''.bytes.length / 256 % 256 = v''.bytes.length / 256 :=
          Nat.mod_eq_of_lt (by omega)
        have hkmod : hk.length % 256 = hk.length := Nat.mod_eq_of_lt (by omega)
        simp only [flattenKey] at htail
        simp [flattenKey, flattenEntries, uInt16Buffer, hlt, htail, exceptBind_ok,
          canonicalEncodingSpec, hdiv, hkmod]

/-- Witness for the amended C8 at concrete inputs: a 70000-byte value makes
`flattenKey` fail, and a small in-bounds key flattens to its canonical
encoding. -/
theorem c8_flatten_amended_witness :
    flattenKey [([80], some (DBValue.str (List.replicate 70000 97)))] = .error () ∧
    flattenKey [([80, 75], some (DBValue.str [104, 105])), ([83], none)] =
      .ok (canonicalEncodingSpec [([80, 75], some (DBValue.str [104, 105])), ([83], none)]) := by
  constructor
  · exact c8_flatten_amended.1 _ [80] (DBValue.str (List.replicate 70000 97))
      (List.mem_cons_self _ _)
      (by rw [show (DBValue.str (List.replicate 70000 97)).bytes =
                List.replicate 70000 97 from rfl, List.length_replicate]
          omega)
  · refine c8_flatten_amended.2 _ ?_
    intro k v h
    rcases List.mem_cons.mp h with heq | h2
    · injection heq with h1 h2
      subst h1
      obtain rfl : v = DBValue.str [104, 105] := by
        injection h2.symm with hv
        exact hv.symm
      constructor <;> decide
    · rcases List.mem_cons.mp h2 with heq | h3
      · injection heq with h1 h2
        exact absurd h2.symm (by simp)
      · simp at h3

/-- C9 counterexample: the claim says `filter`/`limit`/`from` carry "all
remaining options" over to the new instance, but `clone` does not
destructure `_context`, so the configured context is silently reset: on an
engine whose context is `some [42]`, the engine returned by `limit(5)` has
no context at all. -/
theorem c9_clone_drops_context :
    (limitM c9Engine 5).context = none ∧ c9Engine.context = some [42] := by
  exact ⟨rfl, rfl⟩

/-- C9 as amended: each fluent method returns a fresh instance carrying the
same query, client, key, method, and the untouched two of
`filter`/`limit`/`from`, with only the configured option replaced, and with
fresh consumption state (zero counters, empty buffer, `done = false`,
pointer re-seeded from the query); however the `context` option is NOT
carried (it resets to `undefined`).  On the single-segment engine, `schema`
and `indexes` are carried; the parallel coordinator's `clone` additionally
drops `schema` and `indexes`, which re-default, while it carries the segment
count.  (The receiver itself is never mutated: the methods are pure
constructions over the captured options.) -/
theorem c9_clone_amended {κ γ : Type} (e : Engine κ γ) (pe : PEngine κ γ)
    (p : Item → Bool) (tok : Option (List Char)) (n : Nat) :
    ((filterM e p).query = e.query ∧ (filterM e p).client = e.client ∧
     (filterM e p).key = e.key ∧ (filterM e p).method = e.method ∧
     (filterM e p).schema = e.schema ∧ (filterM e p).indexes = e.indexes ∧
     (filterM e p).limit = e.limit ∧ (filterM e p).fromTok = e.fromTok ∧
     (filterM e p).filter = some p ∧ (filterM e p).context = none ∧
     (filterM e p).count = 0 ∧ (filterM e p).requestCount = 0 ∧
     (filterM e p).scannedCount = 0 ∧ (filterM e p).consumedCapacity = 0 ∧
     (filterM e p).done = false ∧ (filterM e p).curPage = [] ∧
     (filterM e p).nextKey = e.query.exclusiveStartKey) ∧
    ((limitM e n).query = e.query ∧ (limitM e n).client = e.client ∧
     (limitM e n).key = e.key ∧ (limitM e n).method = e.method ∧
     (limitM e n).schema = e.schema ∧ (limitM e n).indexes = e.indexes ∧
     (limitM e n).limit = some n ∧ (limitM e n).fromTok = e.fromTok ∧
     (limitM e n).filter = e.filter ∧ (limitM e n).context = none ∧
     (limitM e n).count = 0 ∧ (limitM e n).done = false ∧
     (limitM e n).curPage = []) ∧
    ((fromM e tok).query = e.query ∧ (fromM e tok).client = e.client ∧
     (fromM e tok).key = e.key ∧ (fromM e tok).method = e.method ∧
     (fromM e tok).schema = e.schema ∧ (fromM e tok).indexes = e.indexes ∧
     (fromM e tok).limit = e.limit ∧ (fromM e tok).fromTok = tok ∧
     (fromM e tok).filter = e.filter ∧ (fromM e tok).context = none ∧
     (fromM e tok).count = 0 ∧ (fromM e tok).done = false ∧
     (fromM e tok).curPage = []) ∧
    ((limitP pe n).base.query = pe.base.query ∧
     (limitP pe n).base.client = pe.base.client ∧
     (limitP pe n).base.key = pe.base.key ∧
     (limitP pe n).base.method = pe.base.method ∧
     (limitP pe n).base.limit = some n ∧
     (limitP pe n).base.fromTok = pe.base.fromTok ∧
     (limitP pe n).base.filter = pe.base.filter ∧
     (limitP pe n).segments = pe.segments ∧
     (limitP pe n).base.context = none ∧
     (limitP pe n).base.schema = ([80, 75], some [83, 75]) ∧
     (limitP pe n).base.indexes = defaultIndex ∧
     (limitP pe n).base.count = 0 ∧ (limitP pe n).base.done = false ∧
     (limitP pe n).base.curPage = []) ∧
    ((filterP pe p).base.filter = some p ∧ (filterP pe p).base.limit = pe.base.limit ∧
     (filterP pe p).base.context = none ∧
     (filterP pe p).base.schema = ([80, 75], some [83, 75]) ∧
     (filterP pe p).segments = pe.segments) ∧
    ((fromP pe tok).base.fromTok = tok ∧ (fromP pe tok).base.limit = pe.base.limit ∧
     (fromP pe tok).base.context = none ∧
     (fromP pe tok).base.schema = ([80, 75], some [83, 75]) ∧
     (fromP pe tok).segments = pe.segments) := by
  refine ⟨⟨rfl, rfl, rfl, rfl, rfl, rfl, rfl, rfl, rfl, rfl, rfl, rfl, rfl, rfl, rfl, rfl, rfl⟩,
    ⟨rfl, rfl, rfl, rfl, rfl, rfl, rfl, rfl, rfl, rfl, rfl, rfl, rfl⟩,
    ⟨rfl, rfl, rfl, rfl, rfl, rfl, rfl, rfl, rfl, rfl, rfl, rfl, rfl⟩,
    ⟨rfl, rfl, rfl, rfl, rfl, rfl, rfl, rfl, rfl, rfl, rfl, rfl, rfl, rfl⟩,
    ⟨rfl, rfl, rfl, rfl, rfl⟩, ⟨rfl, rfl, rfl, rfl, rfl⟩⟩

/-- C4: for a pull that pops an item: if the buffer is empty afterwards and a
store continuation key exists, the next-key pointer becomes that continuation
key; otherwise it is rebuilt from the popped item's key attributes via the
base schema, merged with the index key pair whenever the query names a
secondary index. -/
theorem c4_pointer_update {κ γ : Type} (e : Engine κ γ) (item : Item)
    (rest : List Item) (h : e.curPage = item :: rest) :
    (e.lastEvaluatedKey.isSome = true ∧ rest = [] →
        (popItem e).1.nextKey = e.lastEvaluatedKey) ∧
    (e.lastEvaluatedKey = none ∨ rest ≠ [] →
        (popItem e).1.nextKey = some (match e.query.indexName with
          | none => buildLastEvaluatedKeyM e item none
          | some idx =>
              mergeSpread (buildLastEvaluatedKeyM e item none)
                (buildLastEvaluatedKeyM e item (some idx)))) := by
  constructor
  · rintro ⟨hs, rfl⟩
    simp only [popItem, h, hs, List.isEmpty_nil, Bool.and_true, if_true]
    cases e.filter with
    | none => rfl
    | some f => by_cases hf : f item <;> simp [hf]
  · intro hcase
    have hcond : (e.lastEvaluatedKey.isSome && rest.isEmpty) = false := by
      rcases hcase with hn | hr
      · simp [hn]
      · simp [List.isEmpty_iff, hr]
    simp only [popItem, h, hcond, Bool.false_eq_true, if_false]
    cases e.filter with
    | none => rfl
    | some f => by_cases hf : f item <;> simp [hf]

/-- Witness for C4: on `c4Engine` the buffer drains and the pointer takes the
store continuation key; on `c4Engine2` the buffer stays non-empty and the
pointer is rebuilt from the popped item via the base schema. -/
theorem c4_pointer_update_witness :
    (c4Engine.lastEvaluatedKey.isSome = true ∧ ([] : List Item) = []) ∧
    (popItem c4Engine).1.nextKey = c4Engine.lastEvaluatedKey ∧
    (c4Engine2.lastEvaluatedKey = none ∨
      [[([80, 75], some (DBValue.str [99]))]] ≠ ([] : List Item)) ∧
    (popItem c4Engine2).1.nextKey = some (match c4Engine2.query.indexName with
      | none => buildLastEvaluatedKeyM c4Engine2 [([80, 75], some (DBValue.str [97]))] none
      | some idx =>
          mergeSpread
            (buildLastEvaluatedKeyM c4Engine2 [([80, 75], some (DBValue.str [97]))] none)
            (buildLastEvaluatedKeyM c4Engine2 [([80, 75], some (DBValue.str [97]))] (some idx))) := by
  refine ⟨⟨rfl, rfl⟩, ?_, Or.inr (by decide), ?_⟩
  · exact (c4_pointer_update c4Engine [([80, 75], some (DBValue.str [97]))] [] rfl).1 ⟨rfl, rfl⟩
  · exact (c4_pointer_update c4Engine2 [([80, 75], some (DBValue.str [97]))]
      [[([80, 75], some (DBValue.str [99]))]] rfl).2 (Or.inr (by decide))

/-- C6 counterexample: the claim says a failed page fetch leaves the engine
state exactly as before the pull, in particular that `requestCount` is not
advanced.  But `_getItems` increments `this._requestCount` BEFORE awaiting
the request, so after a failed pull on a fresh engine the request counter is
1, not 0. -/
theorem c6_failed_fetch_advances_requestCount :
    (match runLoop (engineMeasure c6Engine [Except.error ()] + 1)
        c6Engine [Except.error ()] [] with
     | .fetchFail _ e' _ => e'.requestCount
     | _ => 0) = 1 ∧ c6Engine.requestCount = 0 := by
  exact ⟨rfl, rfl⟩

/-- C6 as amended: a failed page fetch aborts the pull with no items
yielded, and the resulting engine state is exactly the prior state with
`requestCount` incremented by one (the increment happens before the request
is awaited); `count`, `scannedCount`, `consumedCapacity`, the buffer and the
next-key pointer are all untouched, so retrying the same pull reissues the
identical request. -/
theorem c6_failed_fetch_frame {κ γ : Type} (e : Engine κ γ) (rest : Store)
    (acc : List Item) (fuel : Nat)
    (h1 : e.curPage = []) (h2 : e.done = false) :
    runLoop (fuel + 1) e (Except.error () :: rest) acc =
      .fetchFail acc { e with requestCount := e.requestCount + 1 } rest := by
  simp [runLoop, _getItems, h1, h2]

/-- Witness for the amended C6 on the concrete fresh engine. -/
theorem c6_failed_fetch_frame_witness :
    c6Engine.curPage = [] ∧ c6Engine.done = false ∧
    runLoop 1 c6Engine [Except.error ()] [] =
      .fetchFail [] { c6Engine with requestCount := c6Engine.requestCount + 1 } [] := by
  exact ⟨rfl, rfl, c6_failed_fetch_frame c6Engine [] [] 0 rfl rfl⟩

/-- C10: on a fresh engine (no `from` token, no pointer, no filter) over a
store whose first response carries at least one item, `peek()` returns that
first item with `count` restored, yet it issues the first page request
(`requestCount` goes up by one) and advances the internal next-key pointer
from `undefined` to a set key, so `nextToken` is `undefined` before the peek
but defined after it — while the sequence of subsequently yielded items is
exactly the one an un-peeked run would produce (same `runLoop` result at
every fuel). -/
theorem c10_peek_advances_pointer {y : Type} (e : Engine KeysM y) (s : Store)
    (r : Page) (rest : Store) (it : Item) (its : List Item) (iv : List Nat)
    (hcur : e.curPage = []) (hdone : e.done = false) (hfrom : e.fromTok = none)
    (hfilt : e.filter = none) (hnext : e.nextKey = none)
    (hs : s = .ok r :: rest) (hitems : r.items = it :: its) :
    ∃ ep, peekM e s = .item (some it) ep rest ∧
      ep.count = e.count ∧
      ep.requestCount = e.requestCount + 1 ∧
      ep.nextKey.isSome = true ∧
      nextTokenM e iv = none ∧
      (nextTokenM ep iv).isSome = true ∧
      (∀ F, runLoop F ep rest [] = runLoop F e s []) := by
  subst hs
  obtain ⟨ritems, rlek, rsc, rcap⟩ := r
  simp only at hitems
  subst hitems
  set e2 : Engine KeysM y := { e with
    requestCount := e.requestCount + 1,
    scannedCount := e.scannedCount + rsc,
    consumedCapacity := e.consumedCapacity + rcap,
    lastEvaluatedKey := rlek,
    done := rlek.isNone,
    curPage := it :: its } with he2
  have hget : _getItems e (.ok ⟨it :: its, rlek, rsc, rcap⟩ :: rest) =
      (e2, rest, .ok (it :: its)) :=
    getItems_fetch e ⟨it :: its, rlek, rsc, rcap⟩ rest hcur hdone
  have hfilt2 : e2.filter = none := hfilt
  set e3 : Engine KeysM y := { e2 with
    curPage := its,
    nextKey := nextKeyAfterPop e2 it its,
    count := e2.count + 1 } with he3
  have hpop : popItem e2 = (e3, some it) := popItem_cons e2 it its rfl hfilt2
  set ep : Engine KeysM y := { e3 with
    curPage := it :: its,
    count := e3.count - 1 } with hep
  have hstart : iterStart e = .ok e := by
    simp [iterStart, hfrom, hnext]
  refine ⟨ep, ?_, ?_, ?_, ?_, ?_, ?_, ?_⟩
  · simp only [peekM, hstart, pullOneLoop, hget, hpop]
  · simp [hep, he3, he2]
  · simp [hep, he3, he2]
  · exact nextKeyAfterPop_isSome e2 it its
  · simp [nextTokenM, hnext]
  · have h4 := nextKeyAfterPop_isSome e2 it its
    show ((nextKeyAfterPop e2 it its).map _).isSome = true
    cases h : nextKeyAfterPop e2 it its with
    | none => rw [h] at h4; simp at h4
    | some k => rfl
  · intro F
    cases F with
    | zero => rfl
    | succ F =>
      have hget2 : _getItems ep rest = (ep, rest, .ok ep.curPage) :=
        getItems_nonempty ep rest it its rfl
      have hpop2 : popItem ep = (e3, some it) := by
        rw [popItem_cons ep it its rfl (show ep.filter = none from hfilt)]
        rfl
      simp only [runLoop, hget, hpop, hget2, hpop2]

/-- Witness for C10 at the concrete fresh engine and one-page store. -/
theorem c10_peek_advances_pointer_witness :
    c10Engine.curPage = [] ∧ c10Engine.done = false ∧ c10Engine.fromTok = none ∧
    c10Engine.filter = none ∧ c10Engine.nextKey = none ∧
    (∃ ep, peekM c10Engine c10Store = .item (some c10Item) ep [] ∧
      ep.count = c10Engine.count ∧
      ep.requestCount = c10Engine.requestCount + 1 ∧
      ep.nextKey.isSome = true ∧
      nextTokenM c10Engine toyIv = none ∧
      (nextTokenM ep toyIv).isSome = true ∧
      (∀ F, runLoop F ep [] [] = runLoop F c10Engine c10Store [])) :=
  ⟨rfl, rfl, rfl, rfl, rfl,
    c10_peek_advances_pointer c10Engine c10Store ⟨[c10Item], none, 0, 0⟩ [] c10Item []
      toyIv rfl rfl rfl rfl rfl rfl rfl⟩

theorem storeSize_cons (x : Except Unit Page) (xs : Store) :
    storeSize (x :: xs) = respSize x + storeSize xs := by
  simp [storeSize]


/-- `countLtLimit` under a finite limit. -/
theorem countLtLimit_some {x y : Type} (e : Engine x y) (L : Nat)
    (h : e.limit = some L) : countLtLimit e = decide (e.count < L) := by
  obtain ⟨c, rc, sc, cc, dn, cp, nk, lek, lim, fil, frm, q, ctx, k, cl, sch, idx, m⟩ := e
  simp only at h
  subst h
  rfl

/-- The pop-from-a-non-empty-buffer step of the C3 induction (shared between
the buffered case and the case that has just fetched a non-empty page). -/
theorem c3_tail {x y : Type} {f : Item → Bool} {L fuel : Nat}
    (ih : C3Goal (x := x) (y := y) f L fuel)
    (e : Engine x y) (s : Store) (acc : List Item) (it : Item) (its : List Item)
    (hcp : e.curPage = it :: its) (hm : engineMeasure e s ≤ fuel)
    (hinv : C3Inv f L e s) :
    ∃ ys efin sfin, runLoop (fuel + 1) e s acc = .ok (acc ++ ys) efin sfin ∧
      ys.length + e.count = L ∧ ys.all f = true ∧ efin.count = L := by
  obtain ⟨hfilt, hlim, hcount, hchain, hqual⟩ := hinv
  have hget := getItems_nonempty e s it its hcp
  rw [hcp, List.countP_cons] at hqual
  have hm2 : storeSize s + (its.length + 1) ≤ fuel := by
    have : engineMeasure e s = storeSize s + (its.length + 1) := by
      simp [engineMeasure, hcp]
    omega
  by_cases hfi : f it = true
  · -- the popped item qualifies: it is yielded and counted
    rw [if_pos hfi] at hqual
    have hpop : popItem e = (poppedC e it its, some it) :=
      popItem_cons_pass e it its f hcp hfilt hfi
    have hfin : finishedM (poppedC e it its) = (e.done && its.isEmpty) := rfl
    have hclt : countLtLimit (poppedC e it its) = decide (e.count + 1 < L) :=
      countLtLimit_some _ L hlim
    by_cases hL : e.count + 1 = L
    · -- limit reached: the guard fails and the loop exits
      refine ⟨[it], poppedC e it its, s, ?_, by simp; omega, by simp [hfi], hL⟩
      have hcl0 : decide (e.count + 1 < L) = false := by simp; omega
      simp only [runLoop, hget, hpop, hfin, hclt, hcl0, Bool.and_false,
        Bool.false_eq_true, if_false]
    · have hc1 : e.count + 1 < L := by omega
      by_cases hfin2 : (e.done && its.isEmpty) = true
      · -- exhausted with the buffer drained, yet short of the limit:
        -- contradicts the availability invariant
        exfalso
        obtain ⟨hd, hie⟩ := Bool.and_eq_true _ _ |>.mp hfin2
        rw [List.isEmpty_iff] at hie
        rw [hd, if_pos rfl, hie] at hqual
        simp at hqual
        omega
      · -- keep looping
        obtain ⟨ys, efin, sfin, hrun, hlen, hall, hcnt⟩ :=
          ih (poppedC e it its) s (acc ++ [it])
            (by show storeSize s + its.length + 1 ≤ fuel; omega)
            ⟨hfilt, hlim, hc1, hchain, by
              show L ≤ (e.count + 1) + its.countP f +
                (if e.done = true then 0 else (storeItems s).countP f)
              omega⟩
        have hlen2 : ys.length + (e.count + 1) = L := hlen
        refine ⟨it :: ys, efin, sfin, ?_, by simp; omega,
          by simp [hfi, hall], hcnt⟩
        have hg : (!(e.done && its.isEmpty) && decide (e.count + 1 < L)) = true := by
          simp [hfin2, hc1]
        simp only [runLoop, hget, hpop, hfin, hclt, hg, if_true]
        rw [show acc ++ it :: ys = (acc ++ [it]) ++ ys by simp]
        exact hrun
  · -- the popped item is filtered out: consumed, not yielded, not counted
    have hfi0 : f it = false := by simpa using hfi
    rw [if_neg (by simp [hfi0])] at hqual
    have hpop : popItem e = (popped e it its, none) :=
      popItem_cons_fail e it its f hcp hfilt hfi0
    have hfin : finishedM (popped e it its) = (e.done && its.isEmpty) := rfl
    have hclt : countLtLimit (popped e it its) = decide (e.count < L) :=
      countLtLimit_some _ L hlim
    by_cases hfin2 : (e.done && its.isEmpty) = true
    · -- again contradicts the availability invariant
      exfalso
      obtain ⟨hd, hie⟩ := Bool.and_eq_true _ _ |>.mp hfin2
      rw [List.isEmpty_iff] at hie
      rw [hd, if_pos rfl, hie] at hqual
      simp at hqual
      omega
    · obtain ⟨ys, efin, sfin, hrun, hlen, hall, hcnt⟩ :=
        ih (popped e it its) s acc
          (by show storeSize s + its.length + 1 ≤ fuel; omega)
          ⟨hfilt, hlim, hcount, hchain, by
            show L ≤ e.count + its.countP f +
              (if e.done = true then 0 else (storeItems s).countP f)
            omega⟩
      have hlen2 : ys.length + e.count = L := hlen
      refine ⟨ys, efin, sfin, ?_, hlen2, hall, hcnt⟩
      have hg : (!(e.done && its.isEmpty) && decide (e.count < L)) = true := by
        simp [hfin2, hcount]
      simp only [runLoop, hget, hpop, hfin, hclt, hg, if_true]
      exact hrun

/-- An iteration that fetches a page with at least one item behaves exactly
like an iteration started on the post-fetch state (whose non-empty buffer
makes `_getItems` a no-op). -/
theorem runLoop_fetch_cons {x y : Type} (e : Engine x y) (r : Page) (rest : Store)
    (acc : List Item) (fuel : Nat) (hcp : e.curPage = []) (hd : e.done = false)
    (it : Item) (its : List Item) (hri : r.items = it :: its) :
    runLoop (fuel + 1) e (.ok r :: rest) acc =
      runLoop (fuel + 1) (fetched e r) rest acc := by
  have hget : _getItems e (.ok r :: rest) = (fetched e r, rest, .ok r.items) :=
    getItems_fetch e r rest hcp hd
  have hget2 : _getItems (fetched e r) rest = (fetched e r, rest, .ok (fetched e r).curPage) :=
    getItems_nonempty (fetched e r) rest it its hri
  simp only [runLoop, hget, hget2]

/-- C3 induction, main lemma. -/
theorem c3_run {x y : Type} (f : Item → Bool) (L : Nat) :
    ∀ fuel, C3Goal (x := x) (y := y) f L fuel := by
  intro fuel
  induction fuel with
  | zero => intro e s acc hm _; exact absurd hm (by omega)
  | succ fuel ih =>
    intro e s acc hm hinv
    obtain ⟨hfilt, hlim, hcount, hchain, hqual⟩ := hinv
    cases hcp : e.curPage with
    | cons it its =>
      exact c3_tail ih e s acc it its hcp (by omega) ⟨hfilt, hlim, hcount, hchain, hqual⟩
    | nil =>
      by_cases hd : e.done = true
      · exfalso
        rw [hcp, hd, if_pos rfl] at hqual
        simp at hqual
        omega
      · have hdf : e.done = false := by simpa using hd
        have hch := hchain hdf
        rw [hcp] at hqual
        rw [if_neg (by simp [hdf])] at hqual
        simp only [List.countP_nil, add_zero] at hqual
        cases s with
        | nil => simp [OkChainB] at hch
        | cons resp rest =>
          cases resp with
          | error u => simp [OkChainB] at hch
          | ok r =>
            obtain ⟨ritems, rlek, rsc, rcap⟩ := r
            have hmv : engineMeasure e (.ok ⟨ritems, rlek, rsc, rcap⟩ :: rest) =
                (ritems.length + 1) + storeSize rest := by
              simp [engineMeasure, hcp, storeSize_cons, respSize]
            have hsi : storeItems (.ok ⟨ritems, rlek, rsc, rcap⟩ :: rest) =
                ritems ++ storeItems rest := rfl
            rw [hsi, List.countP_append] at hqual
            cases ritems with
            | cons it its =>
              rw [runLoop_fetch_cons e ⟨it :: its, rlek, rsc, rcap⟩ rest acc fuel hcp hdf
                it its rfl]
              refine c3_tail ih (fetched e ⟨it :: its, rlek, rsc, rcap⟩) rest acc it its
                rfl ?_ ⟨hfilt, hlim, hcount, ?_, ?_⟩
              · show storeSize rest + (it :: its).length ≤ fuel
                rw [hmv] at hm
                simp only [List.length_cons] at hm ⊢
                omega
              · -- chain survives when the fetched page was not the last
                intro h2
                cases rlek with
                | none => simp [fetched] at h2
                | some kk =>
                  cases rest with
                  | nil => simp [OkChainB] at hch
                  | cons r2 rest2 => simpa [OkChainB] using hch
              · show L ≤ e.count + (it :: its).countP f +
                  (if rlek.isNone = true then 0 else (storeItems rest).countP f)
                cases rlek with
                | none =>
                  -- last page: the chain forces the store to end here
                  cases rest with
                  | nil => simp [storeItems] at hqual ⊢; omega
                  | cons r2 rest2 => simp [OkChainB] at hch
                | some kk => simp at hqual ⊢; omega
            | nil =>
              -- an empty page was fetched
              cases rlek with
              | none =>
                exfalso
                cases rest with
                | nil => simp [storeItems] at hqual; omega
                | cons r2 rest2 => simp [OkChainB] at hch
              | some kk =>
                cases rest with
                | nil => simp [OkChainB] at hch
                | cons r2 rest2 =>
                  have hch2 : OkChainB (r2 :: rest2) = true := by
                    simpa [OkChainB] using hch
                  have hget : _getItems e (.ok ⟨[], some kk, rsc, rcap⟩ :: r2 :: rest2) =
                      (fetched e ⟨[], some kk, rsc, rcap⟩, r2 :: rest2, .ok []) :=
                    getItems_fetch e ⟨[], some kk, rsc, rcap⟩ (r2 :: rest2) hcp hdf
                  have hpop : popItem (fetched e ⟨[], some kk, rsc, rcap⟩) =
                      ({ fetched e ⟨[], some kk, rsc, rcap⟩ with nextKey := some kk },
                        none) := by
                    rw [popItem_nil (fetched e ⟨[], some kk, rsc, rcap⟩) rfl]
                    rfl
                  obtain ⟨ys, efin, sfin, hrun, hlen, hall, hcnt⟩ :=
                    ih { fetched e ⟨[], some kk, rsc, rcap⟩ with nextKey := some kk }
                      (r2 :: rest2) acc
                      (by show storeSize (r2 :: rest2) + ([] : List Item).length + 1 ≤ fuel
                          simp only [List.length_nil, add_zero]
                          rw [hmv] at hm
                          simp only [List.length_nil] at hm
                          omega)
                      ⟨hfilt, hlim, hcount, fun _ => hch2, by
                        show L ≤ e.count + ([] : List Item).countP f +
                          (if false = true then 0 else (storeItems (r2 :: rest2)).countP f)
                        simpa using hqual⟩
                  have hlen2 : ys.length + e.count = L := hlen
                  refine ⟨ys, efin, sfin, ?_, hlen2, hall, hcnt⟩
                  have hfin : finishedM { fetched e ⟨[], some kk, rsc, rcap⟩ with
                      nextKey := some kk } = false := rfl
                  have hclt : countLtLimit { fetched e ⟨[], some kk, rsc, rcap⟩ with
                      nextKey := some kk } = decide (e.count < L) :=
                    countLtLimit_some _ L hlim
                  have hg : (!finishedM { fetched e ⟨[], some kk, rsc, rcap⟩ with
                      nextKey := some kk } &&
                      countLtLimit { fetched e ⟨[], some kk, rsc, rcap⟩ with
                        nextKey := some kk }) = true := by
                    rw [hfin, hclt]
                    simp [hcount]
                  simp only [runLoop, hget, hpop, hg, if_true]
                  exact hrun

/-- C3 counterexample: with `limit = 0` (and trivially at least 0 qualifying
items in the store) `all()` yields one item, not exactly `L = 0`: the
`do … while` loop body always runs once before the `count < limit` guard is
consulted. -/
theorem c3_limit_zero_counterexample :
    c3ZeroEngine.limit = some 0 ∧ c3ZeroEngine.filter.isSome = true ∧
    (match runAllM c3ZeroEngine [.ok ⟨[c10Item], none, 0, 0⟩] with
     | .ok (.ok ys _ _) => ys.length
     | _ => 0) = 1 :=
  ⟨rfl, rfl, rfl⟩

/-- C3 as amended (the claim restricted to `L ≥ 1`): an engine configured
with a filter and a limit `L ≥ 1`, over a store that serves well-chained
pages containing at least `L` items satisfying the predicate, yields from
`all()` exactly `L` items, all of them qualifying, issuing as many page
requests as needed. -/
theorem c3_filter_limit_amended {y : Type} (a : EngineArgs KeysM y)
    (f : Item → Bool) (L : Nat) (s : Store)
    (hfilter : a.filter = some f) (hlimit : a.limit = some L)
    (hfrom : a.fromTok = none) (hL : 1 ≤ L) (hchain : OkChainB s = true)
    (hqual : L ≤ (storeItems s).countP f) :
    ∃ ys efin sfin, runAllM (mkEngine a) s = .ok (.ok ys efin sfin) ∧
      ys.length = L ∧ ys.all f = true ∧ efin.count = L := by
  have hstart : iterStart (mkEngine a) = .ok (mkEngine a) := by
    have h1 : (mkEngine a).fromTok = none := hfrom
    simp [iterStart, h1]
  obtain ⟨ys, efin, sfin, hrun, hlen, hall, hcnt⟩ :=
    c3_run f L (engineMeasure (mkEngine a) s + 1) (mkEngine a) s []
      (by omega)
      ⟨hfilter, hlimit, by show 0 < L; omega, fun _ => hchain, by
        show L ≤ 0 + List.countP f [] +
          (if false = true then 0 else (storeItems s).countP f)
        simpa using hqual⟩
  refine ⟨ys, efin, sfin, ?_, by simpa using hlen, hall, hcnt⟩
  simp only [runAllM, hstart, Except.map]
  simpa using hrun

/-- Witness for the amended C3 on a one-page, one-item store with a
pass-everything filter and `limit = 1`. -/
theorem c3_filter_limit_amended_witness :
    (1 : Nat) ≤ 1 ∧ OkChainB [.ok ⟨[c10Item], none, 0, 0⟩] = true ∧
    1 ≤ (storeItems [.ok ⟨[c10Item], none, 0, 0⟩]).countP (fun _ => true) ∧
    (∃ ys efin sfin,
      runAllM (mkEngine c3WArgs) [.ok ⟨[c10Item], none, 0, 0⟩] = .ok (.ok ys efin sfin) ∧
      ys.length = 1 ∧ ys.all (fun _ => true) = true ∧ efin.count = 1) :=
  ⟨le_refl 1, rfl, by decide,
    c3_filter_limit_amended c3WArgs (fun _ => true) 1 [.ok ⟨[c10Item], none, 0, 0⟩]
      rfl rfl rfl (le_refl 1) rfl (by decide)⟩

theorem lastPageNonempty_cons_cons (x r2 : Except Unit Page) (rest2 : Store) :
    lastPageNonempty (x :: r2 :: rest2) = lastPageNonempty (r2 :: rest2) := rfl

/-- A store whose last page is non-empty serves at least one item. -/
theorem lastPageNonempty_storeItems (s : Store)
    (h : lastPageNonempty s = true) : 1 ≤ (storeItems s).length := by
  induction s with
  | nil => simp [lastPageNonempty] at h
  | cons resp rest ih =>
    cases rest with
    | nil =>
      cases resp with
      | error u => simp [lastPageNonempty] at h
      | ok r =>
        simp only [lastPageNonempty, Bool.not_eq_true'] at h
        rw [List.isEmpty_eq_false_iff_exists_mem] at h
        obtain ⟨a, ha⟩ := h
        have : 0 < r.items.length := List.length_pos_of_mem ha
        simp [storeItems]
        omega
    | cons r2 rest2 =>
      rw [lastPageNonempty_cons_cons] at h
      have := ih h
      cases resp with
      | error u => simpa [storeItems] using this
      | ok r => simp [storeItems]; omega

/-- The pop-from-a-non-empty-buffer step of the C5 induction. -/
theorem c5_tail {x y : Type} {L fuel : Nat}
    (ih : C5Goal (x := x) (y := y) L fuel)
    (e : Engine x y) (s : Store) (acc : List Item) (it : Item) (its : List Item)
    (hcp : e.curPage = it :: its) (hm : engineMeasure e s ≤ fuel)
    (hinv : C5Inv L e s) :
    ∃ efin sfin, runLoop (fuel + 1) e s acc =
        .ok (acc ++ e.curPage ++ (if e.done = true then [] else storeItems s)) efin sfin ∧
      efin.count = L ∧ efin.done = true ∧ efin.curPage = [] ∧ efin.fromTok = e.fromTok := by
  obtain ⟨hfilt, hlim, hcount, hchain, hqual⟩ := hinv
  have hget := getItems_nonempty e s it its hcp
  rw [hcp, List.length_cons] at hqual
  have hm2 : storeSize s + (its.length + 1) ≤ fuel := by
    have : engineMeasure e s = storeSize s + (its.length + 1) := by
      simp [engineMeasure, hcp]
    omega
  have hpop : popItem e = (poppedC e it its, some it) :=
    popItem_cons e it its hcp hfilt
  have hfin : finishedM (poppedC e it its) = (e.done && its.isEmpty) := rfl
  have hclt : countLtLimit (poppedC e it its) = decide (e.count + 1 < L) :=
    countLtLimit_some _ L hlim
  by_cases hL : e.count + 1 = L
  · -- the final item: the buffer must be drained and the store exhausted
    have hits : its = [] ∧ (if e.done = true then 0 else (storeItems s).length) = 0 := by
      constructor
      · rw [← List.length_eq_zero]; omega
      · omega
    have hdone : e.done = true := by
      by_contra hdd
      have hdf : e.done = false := by simpa using hdd
      obtain ⟨hchn, hlast⟩ := hchain hdf
      have hge := lastPageNonempty_storeItems s hlast
      have h2 := hits.2
      rw [hdf] at h2
      simp only [Bool.false_eq_true, if_false] at h2
      omega
    refine ⟨poppedC e it its, s, ?_, hL, hdone, ?_, rfl⟩
    · have hcl0 : decide (e.count + 1 < L) = false := by simp; omega
      simp only [runLoop, hget, hpop, hfin, hclt, hcl0, Bool.and_false,
        Bool.false_eq_true, if_false]
      rw [hcp, hits.1, hdone]
      simp
    · show its = []
      exact hits.1
  · have hc1 : e.count + 1 < L := by omega
    by_cases hfin2 : (e.done && its.isEmpty) = true
    · exfalso
      obtain ⟨hd, hie⟩ := Bool.and_eq_true _ _ |>.mp hfin2
      rw [List.isEmpty_iff] at hie
      rw [hd, if_pos rfl, hie] at hqual
      simp at hqual
      omega
    · obtain ⟨efin, sfin, hrun, hcnt, hdn, hcpf, hfr⟩ :=
        ih (poppedC e it its) s (acc ++ [it])
          (by show storeSize s + its.length + 1 ≤ fuel; omega)
          ⟨hfilt, hlim, hc1, hchain, by
            show L = (e.count + 1) + its.length +
              (if e.done = true then 0 else (storeItems s).length)
            omega⟩
      have hrun2 : runLoop fuel (poppedC e it its) s (acc ++ [it]) =
          .ok ((acc ++ [it]) ++ its ++
            (if e.done = true then [] else storeItems s)) efin sfin := hrun
      refine ⟨efin, sfin, ?_, hcnt, hdn, hcpf, hfr⟩
      have hg : (!(e.done && its.isEmpty) && decide (e.count + 1 < L)) = true := by
        simp [hfin2, hc1]
      simp only [runLoop, hget, hpop, hfin, hclt, hg, if_true]
      rw [hcp]
      rw [show acc ++ (it :: its) ++ (if e.done = true then [] else storeItems s) =
        (acc ++ [it]) ++ its ++ (if e.done = true then [] else storeItems s) by simp]
      exact hrun2

/-- C5 induction, main lemma. -/
theorem c5_run {x y : Type} (L : Nat) :
    ∀ fuel, C5Goal (x := x) (y := y) L fuel := by
  intro fuel
  induction fuel with
  | zero => intro e s acc hm _; exact absurd hm (by omega)
  | succ fuel ih =>
    intro e s acc hm hinv
    obtain ⟨hfilt, hlim, hcount, hchain, hqual⟩ := hinv
    cases hcp : e.curPage with
    | cons it its =>
      have h := c5_tail ih e s acc it its hcp (by omega)
        ⟨hfilt, hlim, hcount, hchain, hqual⟩
      rw [hcp] at h
      exact h
    | nil =>
      by_cases hd : e.done = true
      · exfalso
        rw [hcp, hd, if_pos rfl] at hqual
        simp at hqual
        omega
      · have hdf : e.done = false := by simpa using hd
        obtain ⟨hch, hlast⟩ := hchain hdf
        rw [hcp] at hqual
        rw [if_neg (by simp [hdf])] at hqual
        simp only [List.length_nil, add_zero, Nat.zero_add] at hqual
        cases s with
        | nil => simp [OkChainB] at hch
        | cons resp rest =>
          cases resp with
          | error u => simp [OkChainB] at hch
          | ok r =>
            obtain ⟨ritems, rlek, rsc, rcap⟩ := r
            have hmv : engineMeasure e (.ok ⟨ritems, rlek, rsc, rcap⟩ :: rest) =
                (ritems.length + 1) + storeSize rest := by
              simp [engineMeasure, hcp, storeSize_cons, respSize]
            have hsi : storeItems (.ok ⟨ritems, rlek, rsc, rcap⟩ :: rest) =
                ritems ++ storeItems rest := rfl
            rw [hsi, List.length_append] at hqual
            have htgt : acc ++ ([] : List Item) ++
                (if e.done = true then [] else
                  storeItems (.ok ⟨ritems, rlek, rsc, rcap⟩ :: rest)) =
                acc ++ (ritems ++ storeItems rest) := by
              rw [hdf, hsi]
              simp
            cases ritems with
            | cons it its =>
              have hchain2 : (fetched e ⟨it :: its, rlek, rsc, rcap⟩).done = false →
                  OkChainB rest = true ∧ lastPageNonempty rest = true := by
                intro h2
                cases rlek with
                | none => simp [fetched] at h2
                | some kk =>
                  cases rest with
                  | nil => simp [OkChainB] at hch
                  | cons r2 rest2 =>
                    refine ⟨by simpa [OkChainB] using hch, ?_⟩
                    rwa [lastPageNonempty_cons_cons] at hlast
              have hqual2 : L = (fetched e ⟨it :: its, rlek, rsc, rcap⟩).count +
                  (it :: its).length +
                  (if (fetched e ⟨it :: its, rlek, rsc, rcap⟩).done = true then 0
                   else (storeItems rest).length) := by
                show L = e.count + (it :: its).length +
                  (if rlek.isNone = true then 0 else (storeItems rest).length)
                cases rlek with
                | none =>
                  cases rest with
                  | nil => simp [storeItems] at hqual ⊢; omega
                  | cons r2 rest2 => simp [OkChainB] at hch
                | some kk => simp at hqual ⊢; omega
              obtain ⟨efin, sfin, hrun, hcnt, hdn, hcpf, hfr⟩ :=
                c5_tail ih (fetched e ⟨it :: its, rlek, rsc, rcap⟩) rest acc it its
                  rfl
                  (by show storeSize rest + (it :: its).length ≤ fuel
                      rw [hmv] at hm
                      simp only [List.length_cons] at hm ⊢
                      omega)
                  ⟨hfilt, hlim, hcount, hchain2, hqual2⟩
              refine ⟨efin, sfin, ?_, hcnt, hdn, hcpf, hfr⟩
              rw [runLoop_fetch_cons e ⟨it :: its, rlek, rsc, rcap⟩ rest acc fuel hcp hdf
                it its rfl, htgt]
              have hrun2 : runLoop (fuel + 1) (fetched e ⟨it :: its, rlek, rsc, rcap⟩)
                  rest acc = .ok (acc ++ (it :: its) ++
                    (if rlek.isNone = true then [] else storeItems rest)) efin sfin :=
                hrun
              rw [hrun2]
              cases rlek with
              | none =>
                cases rest with
                | nil => simp [storeItems]
                | cons r2 rest2 => simp [OkChainB] at hch
              | some kk => simp [storeItems]
            | nil =>
              cases rlek with
              | none =>
                exfalso
                cases rest with
                | nil => simp [storeItems] at hqual; omega
                | cons r2 rest2 => simp [OkChainB] at hch
              | some kk =>
                cases rest with
                | nil => simp [OkChainB] at hch
                | cons r2 rest2 =>
                  have hch2 : OkChainB (r2 :: rest2) = true := by
                    simpa [OkChainB] using hch
                  have hlast2 : lastPageNonempty (r2 :: rest2) = true := by
                    rwa [lastPageNonempty_cons_cons] at hlast
                  have hget : _getItems e (.ok ⟨[], some kk, rsc, rcap⟩ :: r2 :: rest2) =
                      (fetched e ⟨[], some kk, rsc, rcap⟩, r2 :: rest2, .ok []) :=
                    getItems_fetch e ⟨[], some kk, rsc, rcap⟩ (r2 :: rest2) hcp hdf
                  have hpop : popItem (fetched e ⟨[], some kk, rsc, rcap⟩) =
                      ({ fetched e ⟨[], some kk, rsc, rcap⟩ with nextKey := some kk },
                        none) := by
                    rw [popItem_nil (fetched e ⟨[], some kk, rsc, rcap⟩) rfl]
                    rfl
                  obtain ⟨efin, sfin, hrun, hcnt, hdn, hcpf, hfr⟩ :=
                    ih { fetched e ⟨[], some kk, rsc, rcap⟩ with nextKey := some kk }
                      (r2 :: rest2) acc
                      (by show storeSize (r2 :: rest2) + ([] : List Item).length + 1 ≤ fuel
                          rw [hmv] at hm
                          simp only [List.length_nil] at hm ⊢
                          omega)
                      ⟨hfilt, hlim, hcount, fun _ => ⟨hch2, hlast2⟩, by
                        show L = e.count + ([] : List Item).length +
                          (if false = true then 0 else (storeItems (r2 :: rest2)).length)
                        simpa using hqual⟩
                  refine ⟨efin, sfin, ?_, hcnt, hdn, hcpf, hfr⟩
                  have hrun2 : runLoop fuel
                      ({ fetched e ⟨[], some kk, rsc, rcap⟩ with nextKey := some kk })
                      (r2 :: rest2) acc =
                      .ok (acc ++ storeItems (r2 :: rest2)) efin sfin := by
                    rw [hrun]
                    simp [fetched]
                  have hclt : countLtLimit { fetched e ⟨[], some kk, rsc, rcap⟩ with
                      nextKey := some kk } = decide (e.count < L) :=
                    countLtLimit_some _ L hlim
                  have hg : (!finishedM { fetched e ⟨[], some kk, rsc, rcap⟩ with
                      nextKey := some kk } &&
                      countLtLimit { fetched e ⟨[], some kk, rsc, rcap⟩ with
                        nextKey := some kk }) = true := by
                    rw [show finishedM { fetched e ⟨[], some kk, rsc, rcap⟩ with
                      nextKey := some kk } = false from rfl, hclt]
                    simp [hcount]
                  rw [htgt]
                  simp only [runLoop, hget, hpop, hg, if_true]
                  rw [hrun2]
                  simp [storeItems]

/-- `peek()` on an engine whose store has signalled exhaustion and whose
buffer is drained returns `undefined` (the generator body pops nothing and
the `finished` guard stops the loop). -/
theorem peekM_done {y : Type} (e : Engine KeysM y) (s : Store)
    (hdone : e.done = true) (hcur : e.curPage = []) (hfrom : e.fromTok = none) :
    peekM e s = .item none
      (if e.lastEvaluatedKey.isSome then { e with nextKey := e.lastEvaluatedKey } else e)
      s := by
  have hstart : iterStart e = .ok e := by simp [iterStart, hfrom]
  have hget := getItems_done e s hcur hdone
  have hpop := popItem_nil e hcur
  have hfin : finishedM (if e.lastEvaluatedKey.isSome then
      { e with nextKey := e.lastEvaluatedKey } else e) = true := by
    split <;> simp [finishedM, hdone, hcur]
  simp only [peekM, hstart, pullOneLoop, hget, hpop, hfin, Bool.not_true,
    Bool.false_and, Bool.false_eq_true, if_false]

/-- C5 counterexample: a query whose full result set is exactly K = 1 items,
consumed with `limit = 1`, yields exactly 1 item but leaves `finished`
FALSE when the store reported a continuation key along with the final item
(the exhaustion signal would only arrive with one more empty page). -/
theorem c5_finished_counterexample :
    (storeItems c5CStore).length = 1 ∧ c5CEngine.limit = some 1 ∧
    (match runAllM c5CEngine c5CStore with
     | .ok (.ok ys efin _) => (ys.length, finishedM efin)
     | _ => (0, true)) = (1, false) :=
  ⟨rfl, rfl, rfl⟩

/-- C5 as amended: for a query whose full well-chained result set is exactly
`K` items, with `limit = K` and no filter, `all()` yields exactly the `K`
items; `finished` is true PROVIDED the store delivers the exhaustion signal
(absent continuation key) on the page carrying the final item (for `K = 0`:
provided the store consists of that single empty exhausted page); and every
subsequent `peek()` returns `undefined`. -/
theorem c5_exhaustion_amended {y : Type} (a : EngineArgs KeysM y) (K : Nat)
    (s : Store) (hfilter : a.filter = none) (hlimit : a.limit = some K)
    (hfrom : a.fromTok = none) (hchain : OkChainB s = true)
    (hK : (storeItems s).length = K)
    (hlast : 1 ≤ K → lastPageNonempty s = true)
    (hK0 : K = 0 → s.length = 1) :
    ∃ ys efin sfin, runAllM (mkEngine a) s = .ok (.ok ys efin sfin) ∧
      ys = storeItems s ∧ ys.length = K ∧ finishedM efin = true ∧
      (∃ ef2, peekM efin sfin = .item none ef2 sfin) := by
  have hstart : iterStart (mkEngine a) = .ok (mkEngine a) := by
    have h1 : (mkEngine a).fromTok = none := hfrom
    simp [iterStart, h1]
  by_cases hKz : K = 0
  · -- the empty result set: one empty, exhausted page
    subst hKz
    have hs1 := hK0 rfl
    cases s with
    | nil => simp at hs1
    | cons resp rest =>
      cases rest with
      | cons r2 rest2 => simp at hs1
      | nil =>
        cases resp with
        | error u => simp [OkChainB] at hchain
        | ok r =>
          obtain ⟨ritems, rlek, rsc, rcap⟩ := r
          cases rlek with
          | some kk => simp [OkChainB] at hchain
          | none =>
            have hri : ritems = [] := by
              simpa [storeItems] using hK
            subst hri
            have hget := getItems_fetch (mkEngine a) ⟨[], none, rsc, rcap⟩ [] rfl rfl
            have hpop := popItem_nil (fetched (mkEngine a) ⟨[], none, rsc, rcap⟩) rfl
            refine ⟨[], fetched (mkEngine a) ⟨[], none, rsc, rcap⟩, [], ?_, rfl, rfl,
              rfl, ?_⟩
            · simp only [runAllM, hstart, Except.map, runLoop, hget, hpop]
              rfl
            · exact ⟨_, peekM_done _ [] rfl rfl hfrom⟩
  · have hKpos : 1 ≤ K := by omega
    obtain ⟨efin, sfin, hrun, hcnt, hdn, hcpf, hfr⟩ :=
      c5_run K (engineMeasure (mkEngine a) s + 1) (mkEngine a) s []
        (by omega)
        ⟨hfilter, hlimit, by show 0 < K; omega, fun _ => ⟨hchain, hlast hKpos⟩, by
          show K = 0 + 0 + (if false = true then 0 else (storeItems s).length)
          simpa using hK.symm⟩
    have hrun2 : runLoop (engineMeasure (mkEngine a) s + 1) (mkEngine a) s [] =
        .ok (storeItems s) efin sfin := hrun
    have hfr2 : efin.fromTok = none := by
      rw [hfr]
      exact hfrom
    refine ⟨storeItems s, efin, sfin, ?_, rfl, hK, ?_, ?_⟩
    · simp only [runAllM, hstart, Except.map]
      exact congrArg Except.ok hrun2
    · simp [finishedM, hdn, hcpf]
    · exact ⟨_, peekM_done efin sfin hdn hcpf hfr2⟩

/-- Witness for the amended C5: one page carrying the single item and the
exhaustion signal, `limit = 1`. -/
theorem c5_exhaustion_amended_witness :
    OkChainB [.ok ⟨[c10Item], none, 0, 0⟩] = true ∧
    (storeItems [.ok ⟨[c10Item], none, 0, 0⟩]).length = 1 ∧
    (∃ ys efin sfin,
      runAllM (mkEngine c5WArgs) [.ok ⟨[c10Item], none, 0, 0⟩] = .ok (.ok ys efin sfin) ∧
      ys = storeItems [.ok ⟨[c10Item], none, 0, 0⟩] ∧ ys.length = 1 ∧
      finishedM efin = true ∧
      (∃ ef2, peekM efin sfin = .item none ef2 sfin)) :=
  ⟨rfl, rfl,
    c5_exhaustion_amended c5WArgs 1 [.ok ⟨[c10Item], none, 0, 0⟩]
      rfl rfl rfl rfl rfl (fun _ => rfl) (fun h => by simp at h)⟩

